import Mathlib

/-!
Verification of the hydra dynamic backend pool and switchboard router
(`src/server-pool.ts`, `src/server-resource.ts`, `src/switchboard.ts`,
`src/types.ts`).

The pool code runs on a single-threaded cooperative scheduler (the JS event
loop driving effection operations).  We embed it as a labelled transition
system over an explicit `PoolState`: every label corresponds to one maximal
synchronous segment of the source (the code executed between two suspension
points), so a transition is atomic exactly when the corresponding JS code
runs without an intervening `await` / `yield*`-suspension.

JS `Map` objects are embedded as association lists with unique keys,
preserving insertion order (`msSet` updates in place or appends, `msDelete`
removes the entry).
-/

namespace Hydra

/-- JS `Map.get`. -/
def msGet {κ α : Type} [DecidableEq κ] (m : List (κ × α)) (k : κ) : Option α :=
  match m with
  | [] => none
  | (k₁, v) :: rest => if k₁ = k then some v else msGet rest k

/-- JS `Map.set`: replace in place if the key is present, else append. -/
def msSet {κ α : Type} [DecidableEq κ] (m : List (κ × α)) (k : κ) (v : α) :
    List (κ × α) :=
  match m with
  | [] => [(k, v)]
  | (k₁, v₁) :: rest => if k₁ = k then (k, v) :: rest else (k₁, v₁) :: msSet rest k v

/-- JS `Map.delete`: remove the entry for the key (first occurrence). -/
def msDelete {κ α : Type} [DecidableEq κ] (m : List (κ × α)) (k : κ) :
    List (κ × α) :=
  match m with
  | [] => []
  | (k₁, v₁) :: rest => if k₁ = k then rest else (k₁, v₁) :: msDelete rest k

theorem msGet_msSet_self {κ α : Type} [DecidableEq κ] (m : List (κ × α)) (k : κ) (v : α) :
    msGet (msSet m k v) k = some v := by
  induction m with
  | nil => simp [msGet, msSet]
  | cons p rest ih =>
    obtain ⟨k₁, v₁⟩ := p
    by_cases h : k₁ = k <;> simp [msGet, msSet, h, ih]

theorem msGet_msSet_ne {κ α : Type} [DecidableEq κ] (m : List (κ × α)) (k k₂ : κ) (v : α)
    (h : k ≠ k₂) : msGet (msSet m k v) k₂ = msGet m k₂ := by
  induction m with
  | nil => simp [msGet, msSet, h]
  | cons p rest ih =>
    obtain ⟨k₁, v₁⟩ := p
    by_cases hk : k₁ = k
    · subst hk
      simp [msGet, msSet, h]
    · simp [msGet, msSet, hk, ih]

theorem msGet_eq_none_of_not_mem_keys {κ α : Type} [DecidableEq κ] {m : List (κ × α)} {k : κ}
    (h : k ∉ m.map Prod.fst) : msGet m k = none := by
  induction m with
  | nil => simp [msGet]
  | cons p rest ih =>
    obtain ⟨k₁, v₁⟩ := p
    simp only [List.map_cons, List.mem_cons] at h
    push_neg at h
    have hne : ¬ k₁ = k := fun hh => h.1 hh.symm
    simp [msGet, hne, ih h.2]

theorem msGet_msDelete_self {κ α : Type} [DecidableEq κ] (m : List (κ × α)) (k : κ)
    (hnd : (m.map Prod.fst).Nodup) : msGet (msDelete m k) k = none := by
  induction m with
  | nil => simp [msGet, msDelete]
  | cons p rest ih =>
    obtain ⟨k₁, v₁⟩ := p
    simp only [List.map_cons, List.nodup_cons] at hnd
    by_cases hk : k₁ = k
    · simp only [msDelete, if_pos hk]
      exact msGet_eq_none_of_not_mem_keys (hk ▸ hnd.1)
    · simp [msGet, msDelete, hk]
      exact ih hnd.2

theorem msGet_msDelete_ne {κ α : Type} [DecidableEq κ] (m : List (κ × α)) (k k₂ : κ)
    (h : k ≠ k₂) : msGet (msDelete m k) k₂ = msGet m k₂ := by
  induction m with
  | nil => simp [msGet, msDelete]
  | cons p rest ih =>
    obtain ⟨k₁, v₁⟩ := p
    by_cases hk : k₁ = k
    · subst hk
      simp [msGet, msDelete, h]
    · simp [msGet, msDelete, hk, ih]

theorem msSet_length_of_mem {κ α : Type} [DecidableEq κ] (m : List (κ × α)) (k : κ) (v : α)
    (h : (msGet m k).isSome) : (msSet m k v).length = m.length := by
  induction m with
  | nil => simp [msGet] at h
  | cons p rest ih =>
    obtain ⟨k₁, v₁⟩ := p
    by_cases hk : k₁ = k
    · simp [msSet, hk]
    · simp only [msGet, if_neg hk] at h
      simp [msSet, hk, ih h]

theorem msSet_length_of_not_mem {κ α : Type} [DecidableEq κ] (m : List (κ × α)) (k : κ) (v : α)
    (h : msGet m k = none) : (msSet m k v).length = m.length + 1 := by
  induction m with
  | nil => simp [msSet]
  | cons p rest ih =>
    obtain ⟨k₁, v₁⟩ := p
    by_cases hk : k₁ = k
    · simp [msGet, hk] at h
    · simp only [msGet, if_neg hk] at h
      simp [msSet, hk, ih h]

theorem msDelete_length_le {κ α : Type} [DecidableEq κ] (m : List (κ × α)) (k : κ) :
    (msDelete m k).length ≤ m.length := by
  induction m with
  | nil => simp [msDelete]
  | cons p rest ih =>
    obtain ⟨k₁, v₁⟩ := p
    by_cases hk : k₁ = k <;> simp [msDelete, hk] <;> omega

theorem msSet_mem {κ α : Type} [DecidableEq κ] {m : List (κ × α)} {k : κ} {v : α} {x : κ × α}
    (h : x ∈ msSet m k v) : x ∈ m ∨ x = (k, v) := by
  induction m with
  | nil => simp [msSet] at h; simp [h]
  | cons p rest ih =>
    obtain ⟨k₁, v₁⟩ := p
    by_cases hk : k₁ = k
    · simp only [msSet, if_pos hk, List.mem_cons] at h
      rcases h with h | h
      · right; exact h
      · left; exact List.mem_cons_of_mem _ h
    · simp only [msSet, if_neg hk, List.mem_cons] at h
      rcases h with h | h
      · left; simp [h]
      · rcases ih h with h2 | h2
        · left; exact List.mem_cons_of_mem _ h2
        · right; exact h2

theorem msDelete_subset {κ α : Type} [DecidableEq κ] {m : List (κ × α)} {k : κ} {x : κ × α}
    (h : x ∈ msDelete m k) : x ∈ m := by
  induction m with
  | nil => simp [msDelete] at h
  | cons p rest ih =>
    obtain ⟨k₁, v₁⟩ := p
    by_cases hk : k₁ = k
    · simp only [msDelete, if_pos hk] at h
      exact List.mem_cons_of_mem _ h
    · simp only [msDelete, if_neg hk, List.mem_cons] at h
      rcases h with h | h
      · simp [h]
      · exact List.mem_cons_of_mem _ (ih h)

theorem msGet_eq_some_mem {κ α : Type} [DecidableEq κ] {m : List (κ × α)} {k : κ} {v : α}
    (h : msGet m k = some v) : (k, v) ∈ m := by
  induction m with
  | nil => simp [msGet] at h
  | cons p rest ih =>
    obtain ⟨k₁, v₁⟩ := p
    by_cases hk : k₁ = k
    · simp only [msGet, if_pos hk, Option.some.injEq] at h
      subst hk
      subst h
      exact List.mem_cons_self _ _
    · simp only [msGet, if_neg hk] at h
      exact List.mem_cons_of_mem _ (ih h)

theorem msSet_keys_nodup {κ α : Type} [DecidableEq κ] {m : List (κ × α)} (k : κ) (v : α)
    (h : (m.map Prod.fst).Nodup) : ((msSet m k v).map Prod.fst).Nodup := by
  induction m with
  | nil => simp [msSet]
  | cons p rest ih =>
    obtain ⟨k₁, v₁⟩ := p
    simp only [List.map_cons, List.nodup_cons] at h
    by_cases hk : k₁ = k
    · simp only [msSet, if_pos hk, List.map_cons, List.nodup_cons]
      exact ⟨hk ▸ h.1, h.2⟩
    · simp only [msSet, if_neg hk, List.map_cons, List.nodup_cons]
      constructor
      · intro hmem
        have := List.mem_map.mp hmem
        obtain ⟨x, hx, hfst⟩ := this
        rcases msSet_mem hx with h2 | h2
        · exact h.1 (List.mem_map.mpr ⟨x, h2, hfst⟩)
        · exact hk (by rw [h2] at hfst; exact hfst.symm ▸ rfl)
      · exact ih h.2

theorem msDelete_keys_nodup {κ α : Type} [DecidableEq κ] {m : List (κ × α)} (k : κ)
    (h : (m.map Prod.fst).Nodup) : ((msDelete m k).map Prod.fst).Nodup := by
  induction m with
  | nil => simp [msDelete]
  | cons p rest ih =>
    obtain ⟨k₁, v₁⟩ := p
    simp only [List.map_cons, List.nodup_cons] at h
    by_cases hk : k₁ = k
    · simp only [msDelete, if_pos hk]
      exact h.2
    · simp only [msDelete, if_neg hk, List.map_cons, List.nodup_cons]
      refine ⟨fun hmem => ?_, ih h.2⟩
      obtain ⟨x, hx, hfst⟩ := List.mem_map.mp hmem
      exact h.1 (List.mem_map.mpr ⟨x, msDelete_subset hx, hfst⟩)

/-!
## Data model (`src/types.ts`)

`ServerInfo` carries `hostname`, `port`, `app`, `server`, `task`,
`startedAt`.  The `app`/`server` handles are `null` in the placeholder
created by `doSpawnServer` and populated once the Express server is
listening; we embed handle presence as the boolean `serverPresent`
(`server !== null`), which is exactly what the fast path and `list()`
test.  `task`/`startedAt` play no role in any claim and are omitted.
-/

structure ServerInfo where
  hostname : String
  port : Nat
  serverPresent : Bool
  deriving Repr, DecidableEq

/-- The `ServerEvent` union of `src/types.ts` (the `error` variant carries
an `Error` object plus its `message`; we keep the message). -/
inductive ServerEvent where
  | started (hostname : String) (port : Nat)
  | stopped (hostname : String)
  | error (hostname : String) (message : String)
  deriving Repr, DecidableEq

/-!
## Switchboard key extraction (`src/switchboard.ts`, `extractHostname`)

The relevant request data is the `Host` header and the `X-App-Name`
header; `req.get` returns `undefined` when the header is absent, which we
embed as `Option String` (`some ""` is a header that is present with an
empty value — JS treats it as falsy in `if (appHeader)`).
-/

structure Req where
  host : Option String
  xAppName : Option String
  deriving Repr, DecidableEq

/-- JS `String.prototype.split` with a single-character separator, on the
character list: `"".split(c)` is `[""]`, separators at the ends produce
empty fragments. -/
def splitChars (sep : Char) : List Char → List (List Char)
  | [] => [[]]
  | c :: rest =>
    if c = sep then [] :: splitChars sep rest
    else
      match splitChars sep rest with
      | [] => [[c]]
      | h :: t => (c :: h) :: t

/-- JS `String.prototype.split` with a single-character separator. -/
def jsSplit (str : String) (sep : Char) : List String :=
  (splitChars sep str.data).map String.mk

/-- JS `String.prototype.includes` with a single-character argument. -/
def jsIncludes (str : String) (c : Char) : Bool :=
  str.data.contains c

/-- Direct embedding of `extractHostname(req, defaultHostname)`:
`req.get('host') || ''`, then `host.split(':')[0] ?? ''`, then the
dot test (`hostWithoutPort.includes('.')` and `parts[0] ?? defaultHostname`),
then the `X-App-Name` truthiness test (`if (appHeader)` — an empty string
is falsy in JS), and finally the default. -/
def extractHostname (req : Req) (defaultHostname : String) : String :=
  let host := req.host.getD ""
  let hostWithoutPort := (jsSplit host ':').headD ""
  if jsIncludes hostWithoutPort '.' then
    (jsSplit hostWithoutPort '.').headD defaultHostname
  else
    match req.xAppName with
    | some appHeader => if appHeader = "" then defaultHostname else appHeader
    | none => defaultHostname

/-- Amended routing-key specification, following the amended claim C6
word for word: take the portion of the Host value before the first `':'`
(for Host values with at most one `':'` this is the value with the
trailing `:port` stripped); if it contains a `'.'`, the key is the first
dot-separated label; otherwise, if an `X-App-Name` header is present with
a non-empty value, the key is that value verbatim (a present but empty
header is treated as absent); otherwise the key is the configured
default. -/
def routeKeyAmendedSpec (req : Req) (defaultHostname : String) : String :=
  let beforeColon := (jsSplit (req.host.getD "") ':').headD ""
  if jsIncludes beforeColon '.' then
    (jsSplit beforeColon '.').headD defaultHostname
  else if h : req.xAppName.isSome then
    let v := req.xAppName.get h
    if v = "" then defaultHostname else v
  else
    defaultHostname

end Hydra


namespace Hydra

/-- Claim C6, counterexample: the claim states that when the (port-stripped)
Host value has no dot and an `X-App-Name` header is present, the key is the
header value verbatim.  For a request with Host `"localhost"` and an
`X-App-Name` header that is present with the empty value, the verbatim key
would be `""`, but `extractHostname` treats the empty header as falsy
(`if (appHeader)`) and returns the configured default instead. -/
theorem extractHostname_header_verbatim_counterexample :
    extractHostname { host := some "localhost", xAppName := some "" } "default" = "default" ∧
    extractHostname { host := some "localhost", xAppName := some "" } "default" ≠ "" := by
  decide

/-- Claim C6 (amended): the routing key is computed by this precedence: take
the portion of the Host value before the first `':'`; if it contains a `'.'`,
the key is the first dot-separated label; otherwise, if an `X-App-Name`
header is present with a non-empty value, the key is its value verbatim (a
present but empty header value is treated as absent); otherwise the key is
the configured default.  In particular Host `"app-a.localhost:8000"` yields
`"app-a"`, Host `"localhost"` with header `"custom"` yields `"custom"`, and
Host `"localhost"` with no header yields `"default"`. -/
theorem extractHostname_amended_spec :
    (∀ req dflt, extractHostname req dflt = routeKeyAmendedSpec req dflt) ∧
    extractHostname { host := some "app-a.localhost:8000", xAppName := none } "default"
      = "app-a" ∧
    extractHostname { host := some "localhost", xAppName := some "custom" } "default"
      = "custom" ∧
    extractHostname { host := some "localhost", xAppName := none } "default" = "default" := by
  refine ⟨fun req dflt => ?_, by decide, by decide, by decide⟩
  unfold extractHostname routeKeyAmendedSpec
  cases h : req.xAppName <;> simp [h]

end Hydra

namespace Hydra

/-!
## The server pool (`src/server-pool.ts`)

State of one `useServerPool` instance.  A *provisioning attempt* is the
pair of the `doSpawnServer` invocation and the long-lived lifecycle task
it creates with `scope.run`; we give each attempt a ghost identifier
(`nextAttemptId` counter) so that events and map entries can refer to it.
The `readyPromise` of an attempt is embedded as its `result` field: `none`
while unsettled, `some` once `resolveReady`/`rejectReady` has run — every
caller awaiting the promise observes that single value.

Phases of an attempt's lifecycle task:
* `binding`  — inside `useExpressServer`, waiting for `app.listen`;
* `running`  — `started` emitted, task suspended in `yield* suspend()`;
* `closing`  — the task body has been wound down (its `finally` already ran)
  and the `useExpressServer` resource teardown is waiting for the server's
  close confirmation;
* `done`     — the task has fully terminated.
-/

inductive AttemptPhase where
  | binding
  | running
  | closing
  | done
  deriving Repr, DecidableEq

/-- Settled value of an attempt's `readyPromise`. -/
inductive AttemptResult where
  | ok (info : ServerInfo)
  | failed (message : String)
  deriving Repr, DecidableEq

structure Attempt where
  hostname : String
  port : Nat
  phase : AttemptPhase
  result : Option AttemptResult
  deriving Repr, DecidableEq

/-- State of the pool: the three `Map`s of `useServerPool` (`servers`,
`serverTasks`, `pendingCreations` — task values and pending promises are
represented by their attempt identifier), the `nextPort` counter, the
ghost attempt table, and the event signal.  `sends` records every
`emitEvent` call, tagged with the attempt that issued it (`none` for the
capacity-error emit inside `getOrCreate`); `published` records the events
sent while the signal was open — only those are observable by
subscribers, since `events.close()` ends every subscription. -/
structure PoolState where
  maxServers : Nat
  servers : List (String × ServerInfo)
  serverTasks : List (String × Nat)
  pendingCreations : List (String × Nat)
  nextPort : Nat
  nextAttemptId : Nat
  attempts : List (Nat × Attempt)
  sends : List (Option Nat × ServerEvent)
  published : List ServerEvent
  busClosed : Bool
  deriving Repr, DecidableEq

/-- Pool state right after `useServerPool({ basePort, maxServers })` has
initialised its locals. -/
def initState (basePort maxServers : Nat) : PoolState :=
  { maxServers := maxServers
    servers := []
    serverTasks := []
    pendingCreations := []
    nextPort := basePort
    nextAttemptId := 0
    attempts := []
    sends := []
    published := []
    busClosed := false }

/-- `emitEvent` = `events.send(event)`: always recorded in `sends`; it
reaches subscribers (is published) only while the signal is open. -/
def emitEvent (src : Option Nat) (e : ServerEvent) (s : PoolState) : PoolState :=
  { s with
    sends := s.sends ++ [(src, e)]
    published := if s.busClosed then s.published else s.published ++ [e] }

/-- The placeholder `ServerInfo` built at the top of `doSpawnServer`
(`app`/`server`/`task` still `null`). -/
def placeholderInfo (hostname : String) (port : Nat) : ServerInfo :=
  { hostname := hostname, port := port, serverPresent := false }

/-- The same record object after `info.app = handle.app; info.server =
handle.server` has run. -/
def readyInfo (hostname : String) (port : Nat) : ServerInfo :=
  { hostname := hostname, port := port, serverPresent := true }

/-- The message of the `CapacityExceeded` error thrown by `getOrCreate`. -/
def capacityMessage (maxServers : Nat) : String :=
  s!"Maximum number of servers ({maxServers}) reached"

/-- Outcome of the synchronous segment of `getOrCreate(hostname)` (the
code from entry up to the first `await`): either the fast path returned an
existing ready record, or the call deduplicated onto the pending creation
of attempt `a`, or it threw the capacity error, or it started provisioning
attempt `a` on the given port and is now awaiting it. -/
inductive GoCStart where
  | fastPath (info : ServerInfo)
  | awaitPending (a : Nat)
  | capacityError (message : String)
  | newAttempt (a : Nat) (port : Nat)
  deriving Repr, DecidableEq

/-- Synchronous segment of `getOrCreate(hostname)` past the fast-path
test: the pending-creation check, the capacity check (which emits an
`error` event and throws), and otherwise `const port = nextPort++`
followed by `scope.run(doSpawnServer)` — which synchronously stores the
placeholder record (`servers.set`), starts the lifecycle task
(`serverTasks.set`) and suspends waiting for `app.listen` — and
`pendingCreations.set(hostname, spawnPromise)`.  None of this contains an
`await`: `scope.run` drives its operation synchronously up to the first
suspension point, which is why the placeholder is stored "immediately so
concurrent requests see it" (comment in `doSpawnServer`). -/
def getOrCreateSlow (s : PoolState) (hostname : String) : GoCStart × PoolState :=
  match msGet s.pendingCreations hostname with
  | some a => (.awaitPending a, s)
  | none =>
    if s.servers.length ≥ s.maxServers then
      (.capacityError (capacityMessage s.maxServers),
        emitEvent none (.error hostname (capacityMessage s.maxServers)) s)
    else
      let port := s.nextPort
      let a := s.nextAttemptId
      (.newAttempt a port,
        { s with
          nextPort := port + 1
          nextAttemptId := a + 1
          servers := msSet s.servers hostname (placeholderInfo hostname port)
          serverTasks := msSet s.serverTasks hostname a
          pendingCreations := msSet s.pendingCreations hostname a
          attempts := msSet s.attempts a
            { hostname := hostname, port := port, phase := .binding, result := none } })

/-- Synchronous segment of `getOrCreate(hostname)`: fast path (`existing
&& existing.server`), then `getOrCreateSlow`. -/
def getOrCreateStart (s : PoolState) (hostname : String) : GoCStart × PoolState :=
  match msGet s.servers hostname with
  | some existing =>
    if existing.serverPresent then (.fastPath existing, s)
    else getOrCreateSlow s hostname
  | none => getOrCreateSlow s hostname

/-- Effect on the `servers` map of the lifecycle task mutating its
captured `info` object (`info.app = handle.app; info.server =
handle.server`): the map entry for the hostname becomes ready exactly
when it still holds this attempt's record object — record objects of
distinct attempts are distinguished by their (never reused) port. -/
def setReady (m : List (String × ServerInfo)) (hostname : String) (port : Nat) :
    List (String × ServerInfo) :=
  match msGet m hostname with
  | some info => if info.port = port then msSet m hostname (readyInfo hostname port) else m
  | none => m

/-- Scheduler labels.  Each is one maximal synchronous segment of the
pool code:
* `callStart h` — the synchronous prefix of a `getOrCreate(h)` call;
* `listenOk a` — attempt `a`'s `app.listen` succeeded: the resource
  provides, the daemon watcher is spawned, the task populates the record,
  emits `started` and resolves the `readyPromise`, then suspends;
* `listenFail a msg` — `app.listen` failed: the error propagates into the
  task's `catch` (emit `error`, reject the `readyPromise`, rethrow) and
  `finally` (emit `stopped`, delete the record and task entries);
* `settled a` — the continuations of the `getOrCreate` callers awaiting
  attempt `a` run their `finally { pendingCreations.delete(hostname) }`;
* `haltBegin a` — `task.halt()` winds down the task body: its `finally`
  emits `stopped` and deletes the record and task entries; for a running
  attempt the `useExpressServer` teardown then calls `server.close()` and
  suspends waiting for the close confirmation (`closing`); an attempt
  halted while still binding never acquired the server resource and
  terminates directly (`done`);
* `closeOk a` — the close confirmation arrived; the resource teardown and
  with it `task.halt()` complete;
* `crash a msg` — the daemon watcher saw the running server close or
  error unexpectedly and threw `ServerDaemonError` into the task: `catch`
  emits `error`, `rejectReady` is a no-op (the promise is already
  resolved), `finally` emits `stopped` and deletes the entries, then the
  resource teardown begins (`closing`);
* `closeBus` — the pool resource's own `finally` runs `events.close()`.
-/
inductive Label where
  | callStart (hostname : String)
  | listenOk (a : Nat)
  | listenFail (a : Nat) (message : String)
  | settled (a : Nat)
  | haltBegin (a : Nat)
  | closeOk (a : Nat)
  | crash (a : Nat) (message : String)
  | closeBus
  deriving Repr, DecidableEq

/-- One transition of the pool; `none` when the label is not enabled in
this state. -/
def step (s : PoolState) : Label → Option PoolState
  | .callStart hostname => some (getOrCreateStart s hostname).2
  | .listenOk a =>
    match msGet s.attempts a with
    | some att =>
      if att.phase = .binding then
        some (emitEvent (some a) (.started att.hostname att.port)
          { s with
            servers := setReady s.servers att.hostname att.port
            attempts := msSet s.attempts a
              { att with
                phase := .running
                result := some (.ok (readyInfo att.hostname att.port)) } })
      else none
    | none => none
  | .listenFail a msg =>
    match msGet s.attempts a with
    | some att =>
      if att.phase = .binding then
        some (emitEvent (some a) (.stopped att.hostname)
          (emitEvent (some a) (.error att.hostname msg)
            { s with
              servers := msDelete s.servers att.hostname
              serverTasks := msDelete s.serverTasks att.hostname
              attempts := msSet s.attempts a
                { att with phase := .done, result := some (.failed msg) } }))
      else none
    | none => none
  | .settled a =>
    match msGet s.attempts a with
    | some att =>
      if att.result.isSome ∧ msGet s.pendingCreations att.hostname = some a then
        some { s with pendingCreations := msDelete s.pendingCreations att.hostname }
      else none
    | none => none
  | .haltBegin a =>
    match msGet s.attempts a with
    | some att =>
      match att.phase with
      | .binding =>
        some (emitEvent (some a) (.stopped att.hostname)
          { s with
            servers := msDelete s.servers att.hostname
            serverTasks := msDelete s.serverTasks att.hostname
            attempts := msSet s.attempts a { att with phase := .done } })
      | .running =>
        some (emitEvent (some a) (.stopped att.hostname)
          { s with
            servers := msDelete s.servers att.hostname
            serverTasks := msDelete s.serverTasks att.hostname
            attempts := msSet s.attempts a { att with phase := .closing } })
      | _ => none
    | none => none
  | .closeOk a =>
    match msGet s.attempts a with
    | some att =>
      if att.phase = .closing then
        some { s with attempts := msSet s.attempts a { att with phase := .done } }
      else none
    | none => none
  | .crash a msg =>
    match msGet s.attempts a with
    | some att =>
      if att.phase = .running then
        some (emitEvent (some a) (.stopped att.hostname)
          (emitEvent (some a) (.error att.hostname msg)
            { s with
              servers := msDelete s.servers att.hostname
              serverTasks := msDelete s.serverTasks att.hostname
              attempts := msSet s.attempts a { att with phase := .closing } }))
      else none
    | none => none
  | .closeBus => some { s with busClosed := true }

/-- Total version of `step`: a label that is not enabled is a no-op. -/
def stepD (s : PoolState) (l : Label) : PoolState :=
  (step s l).getD s

/-- Execute a schedule of labels. -/
def runLabels (s : PoolState) (ls : List Label) : PoolState :=
  ls.foldl stepD s

/-- `pool.get(hostname)` — synchronous `servers.get`. -/
def poolGet (s : PoolState) (hostname : String) : Option ServerInfo :=
  msGet s.servers hostname

/-- `pool.list()` — `Array.from(servers.values()).filter(s => s.server !== null)`. -/
def poolList (s : PoolState) : List ServerInfo :=
  (s.servers.map Prod.snd).filter (fun info => info.serverPresent)

/-- `await task.halt()` for one lifecycle task, run to completion: the
body's wind-down (`haltBegin`) followed by the close confirmation
(`closeOk`, a no-op for an attempt that never started listening). -/
def haltAttempt (s : PoolState) (a : Nat) : PoolState :=
  stepD (stepD s (.haltBegin a)) (.closeOk a)

/-- Pool-wide termination: the enclosing scope ends, the pool resource's
generator runs its `finally` (`events.close()`), and then the frame's
children — the lifecycle tasks started with `scope.run` — are halted in
reverse creation order, each halt being awaited to completion. -/
def terminatePool (s : PoolState) : PoolState :=
  ((s.serverTasks.reverse).map Prod.snd).foldl haltAttempt (stepD s .closeBus)

end Hydra

namespace Hydra

theorem msGet_msSet {κ α : Type} [DecidableEq κ] (m : List (κ × α)) (k x : κ) (v : α) :
    msGet (msSet m k v) x = if k = x then some v else msGet m x := by
  by_cases h : k = x
  · subst h
    simp [msGet_msSet_self]
  · simp [h, msGet_msSet_ne m k x v h]

theorem msGet_msDelete {κ α : Type} [DecidableEq κ] (m : List (κ × α)) (k x : κ)
    (hnd : (m.map Prod.fst).Nodup) :
    msGet (msDelete m k) x = if k = x then none else msGet m x := by
  by_cases h : k = x
  · subst h
    simp [msGet_msDelete_self m k hnd]
  · simp [h, msGet_msDelete_ne m k x h]

theorem emitEvent_servers (src : Option Nat) (e : ServerEvent) (s : PoolState) :
    (emitEvent src e s).servers = s.servers := rfl

theorem emitEvent_sends (src : Option Nat) (e : ServerEvent) (s : PoolState) :
    (emitEvent src e s).sends = s.sends ++ [(src, e)] := rfl

/-- Events already sent stay sent: `sends` only ever grows. -/
theorem sends_mono_stepD (s : PoolState) (l : Label) {x : Option Nat × ServerEvent}
    (hx : x ∈ s.sends) : x ∈ (stepD s l).sends := by
  cases l with
  | callStart h =>
    simp only [stepD, step, Option.getD_some, getOrCreateStart]
    cases hsv : msGet s.servers h with
    | some existing =>
      by_cases hr : existing.serverPresent = true
      · simp [hr, hx]
      · simp only [hr]
        simp only [getOrCreateSlow]
        cases hp : msGet s.pendingCreations h with
        | some a => simpa using hx
        | none =>
          by_cases hcap : s.servers.length ≥ s.maxServers
          · simp [hcap, emitEvent, List.mem_append, hx]
          · simp [hcap, hx]
    | none =>
      simp only [getOrCreateSlow]
      cases hp : msGet s.pendingCreations h with
      | some a => simpa using hx
      | none =>
        by_cases hcap : s.servers.length ≥ s.maxServers
        · simp [hcap, emitEvent, List.mem_append, hx]
        · simp [hcap, hx]
  | listenOk a =>
    simp only [stepD, step]
    cases hatt : msGet s.attempts a with
    | some att =>
      by_cases hph : att.phase = .binding
      · simp [hph, emitEvent, List.mem_append, hx]
      · simp [hph, hx]
    | none => simpa using hx
  | listenFail a msg =>
    simp only [stepD, step]
    cases hatt : msGet s.attempts a with
    | some att =>
      by_cases hph : att.phase = .binding
      · simp [hph, emitEvent, List.mem_append, hx]
      · simp [hph, hx]
    | none => simpa using hx
  | settled a =>
    simp only [stepD, step]
    cases hatt : msGet s.attempts a with
    | some att =>
      by_cases hc : att.result.isSome ∧ msGet s.pendingCreations att.hostname = some a
      · simp [hc, hx]
      · simp [hc, hx]
    | none => simpa using hx
  | haltBegin a =>
    simp only [stepD, step]
    cases hatt : msGet s.attempts a with
    | some att =>
      obtain ⟨ah, ap, aph, ares⟩ := att
      cases aph <;> simp [emitEvent, List.mem_append, hx]
    | none => simpa using hx
  | closeOk a =>
    simp only [stepD, step]
    cases hatt : msGet s.attempts a with
    | some att =>
      by_cases hph : att.phase = .closing
      · simp [hph, hx]
      · simp [hph, hx]
    | none => simpa using hx
  | crash a msg =>
    simp only [stepD, step]
    cases hatt : msGet s.attempts a with
    | some att =>
      by_cases hph : att.phase = .running
      · simp [hph, emitEvent, List.mem_append, hx]
      · simp [hph, hx]
    | none => simpa using hx
  | closeBus => simpa [stepD, step] using hx

end Hydra

namespace Hydra

/-- Invariants of the pool state, maintained by every scheduler step.
`initState` satisfies them and `stepD` preserves them, so they hold in
every reachable state. -/
structure Inv (s : PoolState) : Prop where
  ndServers : (s.servers.map Prod.fst).Nodup
  ndTasks : (s.serverTasks.map Prod.fst).Nodup
  ndPending : (s.pendingCreations.map Prod.fst).Nodup
  ndAttempts : (s.attempts.map Prod.fst).Nodup
  idsBelow : ∀ p ∈ s.attempts, p.1 < s.nextAttemptId
  portsBelow : ∀ p ∈ s.attempts, p.2.port < s.nextPort
  portsMono : ∀ p ∈ s.attempts, ∀ q ∈ s.attempts, p.1 < q.1 → p.2.port < q.2.port
  capacity : s.servers.length ≤ s.maxServers
  bindingNoResult : ∀ a att, msGet s.attempts a = some att → att.phase = .binding →
    att.result = none
  bindingPending : ∀ a att, msGet s.attempts a = some att → att.phase = .binding →
    msGet s.pendingCreations att.hostname = some a
  bindingRecord : ∀ a att, msGet s.attempts a = some att → att.phase = .binding →
    msGet s.servers att.hostname = some (placeholderInfo att.hostname att.port)
  runningResult : ∀ a att, msGet s.attempts a = some att → att.phase = .running →
    att.result = some (.ok (readyInfo att.hostname att.port))
  runningRecord : ∀ a att, msGet s.attempts a = some att → att.phase = .running →
    msGet s.servers att.hostname = some (readyInfo att.hostname att.port)
  taskLive : ∀ h a, msGet s.serverTasks h = some a →
    ∃ att, msGet s.attempts a = some att ∧ att.hostname = h ∧
      (att.phase = .binding ∨ att.phase = .running)
  liveTask : ∀ a att, msGet s.attempts a = some att →
    (att.phase = .binding ∨ att.phase = .running) →
    msGet s.serverTasks att.hostname = some a
  recordContent : ∀ h info, msGet s.servers h = some info →
    ∃ a att, msGet s.serverTasks h = some a ∧ msGet s.attempts a = some att ∧
      att.hostname = h ∧
      ((att.phase = .binding ∧ info = placeholderInfo h att.port) ∨
        (att.phase = .running ∧ info = readyInfo h att.port))
  pendingTaskAgree : ∀ h a b, msGet s.pendingCreations h = some a →
    msGet s.serverTasks h = some b → a = b
  stoppedSent : ∀ a att, msGet s.attempts a = some att →
    (att.phase = .closing ∨ att.phase = .done) →
    (some a, ServerEvent.stopped att.hostname) ∈ s.sends
  startedResult : ∀ a h p, (some a, ServerEvent.started h p) ∈ s.sends →
    ∃ att, msGet s.attempts a = some att ∧ ∃ info, att.result = some (.ok info)

theorem inv_init (basePort maxServers : Nat) : Inv (initState basePort maxServers) := by
  constructor <;> simp [initState, msGet]

end Hydra

namespace Hydra

theorem inv_stepD_closeBus {s : PoolState} (hs : Inv s) : Inv (stepD s .closeBus) :=
  ⟨hs.ndServers, hs.ndTasks, hs.ndPending, hs.ndAttempts, hs.idsBelow, hs.portsBelow,
    hs.portsMono, hs.capacity, hs.bindingNoResult, hs.bindingPending, hs.bindingRecord,
    hs.runningResult, hs.runningRecord, hs.taskLive, hs.liveTask, hs.recordContent,
    hs.pendingTaskAgree, hs.stoppedSent, hs.startedResult⟩

theorem inv_stepD_closeOk {s : PoolState} (hs : Inv s) (a : Nat) :
    Inv (stepD s (.closeOk a)) := by
  cases hatt : msGet s.attempts a with
  | none => simpa [stepD, step, hatt] using hs
  | some att =>
    by_cases hph : att.phase = .closing
    · have hmem : (a, att) ∈ s.attempts := msGet_eq_some_mem hatt
      simp only [stepD, step, hatt, if_pos hph, Option.getD_some]
      constructor
      · exact hs.ndServers
      · exact hs.ndTasks
      · exact hs.ndPending
      · exact msSet_keys_nodup _ _ hs.ndAttempts
      · intro p hp
        rcases msSet_mem hp with h | h
        · exact hs.idsBelow p h
        · subst h; exact hs.idsBelow (a, att) hmem
      · intro p hp
        rcases msSet_mem hp with h | h
        · exact hs.portsBelow p h
        · subst h; exact hs.portsBelow (a, att) hmem
      · intro p hp q hq hlt
        rcases msSet_mem hp with h | h <;> rcases msSet_mem hq with h2 | h2
        · exact hs.portsMono p h q h2 hlt
        · subst h2; exact hs.portsMono p h (a, att) hmem hlt
        · subst h; exact hs.portsMono (a, att) hmem q h2 hlt
        · subst h; subst h2; exact absurd hlt (lt_irrefl _)
      · exact hs.capacity
      · intro x attx hx hbx
        rw [msGet_msSet] at hx
        by_cases hax : a = x
        · simp [hax] at hx
          rw [← hx] at hbx
          simp at hbx
        · simp [hax] at hx
          exact hs.bindingNoResult x attx hx hbx
      · intro x attx hx hbx
        rw [msGet_msSet] at hx
        by_cases hax : a = x
        · simp [hax] at hx
          rw [← hx] at hbx
          simp at hbx
        · simp [hax] at hx
          exact hs.bindingPending x attx hx hbx
      · intro x attx hx hbx
        rw [msGet_msSet] at hx
        by_cases hax : a = x
        · simp [hax] at hx
          rw [← hx] at hbx
          simp at hbx
        · simp [hax] at hx
          exact hs.bindingRecord x attx hx hbx
      · intro x attx hx hbx
        rw [msGet_msSet] at hx
        by_cases hax : a = x
        · simp [hax] at hx
          rw [← hx] at hbx
          simp at hbx
        · simp [hax] at hx
          exact hs.runningResult x attx hx hbx
      · intro x attx hx hbx
        rw [msGet_msSet] at hx
        by_cases hax : a = x
        · simp [hax] at hx
          rw [← hx] at hbx
          simp at hbx
        · simp [hax] at hx
          exact hs.runningRecord x attx hx hbx
      · intro h b hb
        obtain ⟨attb, hab, hhb, hlb⟩ := hs.taskLive h b hb
        by_cases hba : b = a
        · subst hba
          rw [hatt] at hab
          cases hab
          rcases hlb with h1 | h1 <;> rw [hph] at h1 <;> cases h1
        · refine ⟨attb, ?_, hhb, hlb⟩
          rw [msGet_msSet_ne _ _ _ _ (fun hh => hba hh.symm)]
          exact hab
      · intro x attx hx hlx
        rw [msGet_msSet] at hx
        by_cases hax : a = x
        · simp [hax] at hx
          rw [← hx] at hlx
          rcases hlx with h1 | h1 <;> cases h1
        · simp [hax] at hx
          exact hs.liveTask x attx hx hlx
      · intro h info hinfo
        obtain ⟨b, attb, htb, hab, hhb, hcb⟩ := hs.recordContent h info hinfo
        by_cases hba : b = a
        · subst hba
          rw [hatt] at hab
          cases hab
          rcases hcb with ⟨h1, _⟩ | ⟨h1, _⟩ <;> rw [hph] at h1 <;> cases h1
        · refine ⟨b, attb, htb, ?_, hhb, hcb⟩
          rw [msGet_msSet_ne _ _ _ _ (fun hh => hba hh.symm)]
          exact hab
      · exact hs.pendingTaskAgree
      · intro x attx hx hcx
        rw [msGet_msSet] at hx
        by_cases hax : a = x
        · simp [hax] at hx
          subst hax
          rw [← hx]
          exact hs.stoppedSent a att hatt (Or.inl hph)
        · simp [hax] at hx
          exact hs.stoppedSent x attx hx hcx
      · intro x h p hxp
        obtain ⟨attx, hax2, info, hres⟩ := hs.startedResult x h p hxp
        by_cases hax : a = x
        · subst hax
          rw [hatt] at hax2
          cases hax2
          refine ⟨{ att with phase := .done }, ?_, info, hres⟩
          rw [msGet_msSet]
          simp
        · refine ⟨attx, ?_, info, hres⟩
          rw [msGet_msSet]
          simp [hax]
          exact hax2
    · simpa [stepD, step, hatt, hph] using hs

end Hydra

namespace Hydra

theorem inv_stepD_settled {s : PoolState} (hs : Inv s) (a : Nat) :
    Inv (stepD s (.settled a)) := by
  cases hatt : msGet s.attempts a with
  | none => simpa [stepD, step, hatt] using hs
  | some att =>
    by_cases hc : att.result.isSome ∧ msGet s.pendingCreations att.hostname = some a
    · simp only [stepD, step, hatt, if_pos hc, Option.getD_some]
      constructor
      · exact hs.ndServers
      · exact hs.ndTasks
      · exact msDelete_keys_nodup _ hs.ndPending
      · exact hs.ndAttempts
      · exact hs.idsBelow
      · exact hs.portsBelow
      · exact hs.portsMono
      · exact hs.capacity
      · exact hs.bindingNoResult
      · intro x attx hx hbx
        by_cases hh : att.hostname = attx.hostname
        · exfalso
          have h1 := hs.bindingPending x attx hx hbx
          rw [← hh, hc.2] at h1
          injection h1 with h1
          subst h1
          rw [hatt] at hx
          injection hx with hx
          subst hx
          have h2 := hs.bindingNoResult a att hatt hbx
          have h3 := hc.1
          rw [h2] at h3
          simp at h3
        · have h1 := hs.bindingPending x attx hx hbx
          rw [msGet_msDelete_ne _ _ _ hh]
          exact h1
      · exact hs.bindingRecord
      · exact hs.runningResult
      · exact hs.runningRecord
      · exact hs.taskLive
      · exact hs.liveTask
      · exact hs.recordContent
      · intro h x b hxp htb
        by_cases hh : att.hostname = h
        · exfalso
          rw [← hh] at hxp
          rw [msGet_msDelete_self _ _ hs.ndPending] at hxp
          cases hxp
        · rw [msGet_msDelete_ne _ _ _ hh] at hxp
          exact hs.pendingTaskAgree h x b hxp htb
      · exact hs.stoppedSent
      · exact hs.startedResult
    · simpa [stepD, step, hatt, hc] using hs

end Hydra

namespace Hydra

theorem setReady_eq_msSet {m : List (String × ServerInfo)} {h : String} {p : Nat} {info : ServerInfo}
    (hrec : msGet m h = some info) (hport : info.port = p) :
    setReady m h p = msSet m h (readyInfo h p) := by
  simp [setReady, hrec, hport]

theorem inv_stepD_listenOk {s : PoolState} (hs : Inv s) (a : Nat) :
    Inv (stepD s (.listenOk a)) := by
  cases hatt : msGet s.attempts a with
  | none => simpa [stepD, step, hatt] using hs
  | some att =>
    by_cases hph : att.phase = .binding
    · have hmem : (a, att) ∈ s.attempts := msGet_eq_some_mem hatt
      have hrec := hs.bindingRecord a att hatt hph
      have hset : setReady s.servers att.hostname att.port
          = msSet s.servers att.hostname (readyInfo att.hostname att.port) :=
        setReady_eq_msSet hrec rfl
      have hpend := hs.bindingPending a att hatt hph
      have htask := hs.liveTask a att hatt (Or.inl hph)
      simp only [stepD, step, hatt, if_pos hph, Option.getD_some, emitEvent, hset]
      constructor
      · exact msSet_keys_nodup _ _ hs.ndServers
      · exact hs.ndTasks
      · exact hs.ndPending
      · exact msSet_keys_nodup _ _ hs.ndAttempts
      · intro p hp
        rcases msSet_mem hp with h | h
        · exact hs.idsBelow p h
        · subst h; exact hs.idsBelow (a, att) hmem
      · intro p hp
        rcases msSet_mem hp with h | h
        · exact hs.portsBelow p h
        · subst h; exact hs.portsBelow (a, att) hmem
      · intro p hp q hq hlt
        rcases msSet_mem hp with h | h <;> rcases msSet_mem hq with h2 | h2
        · exact hs.portsMono p h q h2 hlt
        · subst h2; exact hs.portsMono p h (a, att) hmem hlt
        · subst h; exact hs.portsMono (a, att) hmem q h2 hlt
        · subst h; subst h2; exact absurd hlt (lt_irrefl _)
      · rw [msSet_length_of_mem _ _ _ (by rw [hrec]; rfl)]
        exact hs.capacity
      · intro x attx hx hbx
        rw [msGet_msSet] at hx
        by_cases hax : a = x
        · simp [hax] at hx
          rw [← hx] at hbx
          simp at hbx
        · simp [hax] at hx
          exact hs.bindingNoResult x attx hx hbx
      · intro x attx hx hbx
        rw [msGet_msSet] at hx
        by_cases hax : a = x
        · simp [hax] at hx
          rw [← hx] at hbx
          simp at hbx
        · simp [hax] at hx
          exact hs.bindingPending x attx hx hbx
      · intro x attx hx hbx
        rw [msGet_msSet] at hx
        by_cases hax : a = x
        · simp [hax] at hx
          rw [← hx] at hbx
          simp at hbx
        · simp [hax] at hx
          by_cases hh : att.hostname = attx.hostname
          · exfalso
            have h1 := hs.bindingPending x attx hx hbx
            rw [← hh, hpend] at h1
            injection h1 with h1
            exact hax h1
          · rw [msGet_msSet_ne _ _ _ _ hh]
            exact hs.bindingRecord x attx hx hbx
      · intro x attx hx hrx
        rw [msGet_msSet] at hx
        by_cases hax : a = x
        · simp [hax] at hx
          rw [← hx]
        · simp [hax] at hx
          exact hs.runningResult x attx hx hrx
      · intro x attx hx hrx
        rw [msGet_msSet] at hx
        by_cases hax : a = x
        · simp [hax] at hx
          rw [← hx]
          exact msGet_msSet_self _ _ _
        · simp [hax] at hx
          by_cases hh : att.hostname = attx.hostname
          · exfalso
            have h1 := hs.liveTask x attx hx (Or.inr hrx)
            rw [← hh, htask] at h1
            injection h1 with h1
            exact hax h1
          · rw [msGet_msSet_ne _ _ _ _ hh]
            exact hs.runningRecord x attx hx hrx
      · intro h b hb
        obtain ⟨attb, hab, hhb, hlb⟩ := hs.taskLive h b hb
        by_cases hba : b = a
        · subst hba
          rw [hatt] at hab
          injection hab with hab
          subst hab
          exact ⟨_, msGet_msSet_self _ _ _, hhb, Or.inr rfl⟩
        · refine ⟨attb, ?_, hhb, hlb⟩
          rw [msGet_msSet_ne _ _ _ _ (fun hh => hba hh.symm)]
          exact hab
      · intro x attx hx hlx
        rw [msGet_msSet] at hx
        by_cases hax : a = x
        · simp [hax] at hx
          subst hax
          rw [← hx]
          exact htask
        · simp [hax] at hx
          exact hs.liveTask x attx hx hlx
      · intro h info hinfo
        rw [msGet_msSet] at hinfo
        by_cases hh : att.hostname = h
        · simp [hh] at hinfo
          subst hh
          exact ⟨a, _, htask, msGet_msSet_self _ _ _, rfl, Or.inr ⟨rfl, hinfo.symm⟩⟩
        · simp [hh] at hinfo
          obtain ⟨b, attb, htb, hab, hhb, hcb⟩ := hs.recordContent h info hinfo
          by_cases hba : b = a
          · exfalso
            subst hba
            rw [hatt] at hab
            injection hab with hab
            rw [← hab] at hhb
            exact hh hhb
          · refine ⟨b, attb, htb, ?_, hhb, hcb⟩
            rw [msGet_msSet_ne _ _ _ _ (fun hh2 => hba hh2.symm)]
            exact hab
      · exact hs.pendingTaskAgree
      · intro x attx hx hcx
        rw [msGet_msSet] at hx
        by_cases hax : a = x
        · simp [hax] at hx
          rw [← hx] at hcx
          rcases hcx with h1 | h1 <;> cases h1
        · simp [hax] at hx
          exact List.mem_append_left _ (hs.stoppedSent x attx hx hcx)
      · intro x h p hxp
        rcases List.mem_append.mp hxp with hxp | hxp
        · obtain ⟨attx, hax2, info, hres⟩ := hs.startedResult x h p hxp
          by_cases hax : a = x
          · subst hax
            exact ⟨_, msGet_msSet_self _ _ _, readyInfo att.hostname att.port, rfl⟩
          · refine ⟨attx, ?_, info, hres⟩
            rw [msGet_msSet_ne _ _ _ _ hax]
            exact hax2
        · simp only [List.mem_singleton, Prod.mk.injEq] at hxp
          obtain ⟨hxa, _⟩ := hxp
          injection hxa with hxa
          subst hxa
          exact ⟨_, msGet_msSet_self _ _ _, readyInfo att.hostname att.port, rfl⟩
    · simpa [stepD, step, hatt, hph] using hs

end Hydra

namespace Hydra

theorem inv_stepD_listenFail {s : PoolState} (hs : Inv s) (a : Nat) (msg : String) :
    Inv (stepD s (.listenFail a msg)) := by
  cases hatt : msGet s.attempts a with
  | none => simpa [stepD, step, hatt] using hs
  | some att =>
    by_cases hph : att.phase = .binding
    · have hmem : (a, att) ∈ s.attempts := msGet_eq_some_mem hatt
      have hpend := hs.bindingPending a att hatt hph
      have htask := hs.liveTask a att hatt (Or.inl hph)
      simp only [stepD, step, hatt, if_pos hph, Option.getD_some, emitEvent]
      constructor
      · exact msDelete_keys_nodup _ hs.ndServers
      · exact msDelete_keys_nodup _ hs.ndTasks
      · exact hs.ndPending
      · exact msSet_keys_nodup _ _ hs.ndAttempts
      · intro p hp
        rcases msSet_mem hp with h | h
        · exact hs.idsBelow p h
        · subst h; exact hs.idsBelow (a, att) hmem
      · intro p hp
        rcases msSet_mem hp with h | h
        · exact hs.portsBelow p h
        · subst h; exact hs.portsBelow (a, att) hmem
      · intro p hp q hq hlt
        rcases msSet_mem hp with h | h <;> rcases msSet_mem hq with h2 | h2
        · exact hs.portsMono p h q h2 hlt
        · subst h2; exact hs.portsMono p h (a, att) hmem hlt
        · subst h; exact hs.portsMono (a, att) hmem q h2 hlt
        · subst h; subst h2; exact absurd hlt (lt_irrefl _)
      · exact le_trans (msDelete_length_le _ _) hs.capacity
      · intro x attx hx hbx
        rw [msGet_msSet] at hx
        by_cases hax : a = x
        · simp [hax] at hx
          rw [← hx] at hbx
          simp at hbx
        · simp [hax] at hx
          exact hs.bindingNoResult x attx hx hbx
      · intro x attx hx hbx
        rw [msGet_msSet] at hx
        by_cases hax : a = x
        · simp [hax] at hx
          rw [← hx] at hbx
          simp at hbx
        · simp [hax] at hx
          exact hs.bindingPending x attx hx hbx
      · intro x attx hx hbx
        rw [msGet_msSet] at hx
        by_cases hax : a = x
        · simp [hax] at hx
          rw [← hx] at hbx
          simp at hbx
        · simp [hax] at hx
          by_cases hh : att.hostname = attx.hostname
          · exfalso
            have h1 := hs.bindingPending x attx hx hbx
            rw [← hh, hpend] at h1
            injection h1 with h1
            exact hax h1
          · rw [msGet_msDelete_ne _ _ _ hh]
            exact hs.bindingRecord x attx hx hbx
      · intro x attx hx hrx
        rw [msGet_msSet] at hx
        by_cases hax : a = x
        · simp [hax] at hx
          rw [← hx] at hrx
          simp at hrx
        · simp [hax] at hx
          exact hs.runningResult x attx hx hrx
      · intro x attx hx hrx
        rw [msGet_msSet] at hx
        by_cases hax : a = x
        · simp [hax] at hx
          rw [← hx] at hrx
          simp at hrx
        · simp [hax] at hx
          by_cases hh : att.hostname = attx.hostname
          · exfalso
            have h1 := hs.liveTask x attx hx (Or.inr hrx)
            rw [← hh, htask] at h1
            injection h1 with h1
            exact hax h1
          · rw [msGet_msDelete_ne _ _ _ hh]
            exact hs.runningRecord x attx hx hrx
      · intro h b hb
        by_cases hh : att.hostname = h
        · exfalso
          rw [← hh] at hb
          rw [msGet_msDelete_self _ _ hs.ndTasks] at hb
          cases hb
        · rw [msGet_msDelete_ne _ _ _ hh] at hb
          obtain ⟨attb, hab, hhb, hlb⟩ := hs.taskLive h b hb
          by_cases hba : b = a
          · exfalso
            subst hba
            rw [hatt] at hab
            injection hab with hab
            rw [← hab] at hhb
            exact hh hhb
          · refine ⟨attb, ?_, hhb, hlb⟩
            rw [msGet_msSet_ne _ _ _ _ (fun hh2 => hba hh2.symm)]
            exact hab
      · intro x attx hx hlx
        rw [msGet_msSet] at hx
        by_cases hax : a = x
        · simp [hax] at hx
          rw [← hx] at hlx
          rcases hlx with h1 | h1 <;> cases h1
        · simp [hax] at hx
          by_cases hh : att.hostname = attx.hostname
          · exfalso
            have h1 := hs.liveTask x attx hx hlx
            rw [← hh, htask] at h1
            injection h1 with h1
            exact hax h1
          · rw [msGet_msDelete_ne _ _ _ hh]
            exact hs.liveTask x attx hx hlx
      · intro h info hinfo
        by_cases hh : att.hostname = h
        · exfalso
          rw [← hh] at hinfo
          rw [msGet_msDelete_self _ _ hs.ndServers] at hinfo
          cases hinfo
        · rw [msGet_msDelete_ne _ _ _ hh] at hinfo
          obtain ⟨b, attb, htb, hab, hhb, hcb⟩ := hs.recordContent h info hinfo
          by_cases hba : b = a
          · exfalso
            subst hba
            rw [hatt] at hab
            injection hab with hab
            rw [← hab] at hhb
            exact hh hhb
          · refine ⟨b, attb, ?_, ?_, hhb, hcb⟩
            · rw [msGet_msDelete_ne _ _ _ hh]
              exact htb
            · rw [msGet_msSet_ne _ _ _ _ (fun hh2 => hba hh2.symm)]
              exact hab
      · intro h x b hxp htb
        by_cases hh : att.hostname = h
        · exfalso
          rw [← hh] at htb
          rw [msGet_msDelete_self _ _ hs.ndTasks] at htb
          cases htb
        · rw [msGet_msDelete_ne _ _ _ hh] at htb
          exact hs.pendingTaskAgree h x b hxp htb
      · intro x attx hx hcx
        rw [msGet_msSet] at hx
        by_cases hax : a = x
        · simp [hax] at hx
          subst hax
          rw [← hx]
          simp
        · simp [hax] at hx
          exact List.mem_append_left _
            (List.mem_append_left _ (hs.stoppedSent x attx hx hcx))
      · intro x h p hxp
        rcases List.mem_append.mp hxp with hxp | hxp
        · rcases List.mem_append.mp hxp with hxp | hxp
          · obtain ⟨attx, hax2, info, hres⟩ := hs.startedResult x h p hxp
            by_cases hax : a = x
            · exfalso
              subst hax
              rw [hatt] at hax2
              injection hax2 with hax2
              rw [← hax2] at hres
              rw [hs.bindingNoResult a att hatt hph] at hres
              cases hres
            · refine ⟨attx, ?_, info, hres⟩
              rw [msGet_msSet_ne _ _ _ _ hax]
              exact hax2
          · simp at hxp
        · simp at hxp
    · simpa [stepD, step, hatt, hph] using hs

end Hydra

namespace Hydra

theorem inv_stepD_haltBegin {s : PoolState} (hs : Inv s) (a : Nat) :
    Inv (stepD s (.haltBegin a)) := by
  cases hatt : msGet s.attempts a with
  | none => simpa [stepD, step, hatt] using hs
  | some att =>
    have hmem : (a, att) ∈ s.attempts := msGet_eq_some_mem hatt
    cases hph : att.phase with
    | closing => simpa [stepD, step, hatt, hph] using hs
    | done => simpa [stepD, step, hatt, hph] using hs
    | binding =>
      have hpend := hs.bindingPending a att hatt hph
      have htask := hs.liveTask a att hatt (Or.inl hph)
      simp only [stepD, step, hatt, hph, Option.getD_some, emitEvent]
      constructor
      · exact msDelete_keys_nodup _ hs.ndServers
      · exact msDelete_keys_nodup _ hs.ndTasks
      · exact hs.ndPending
      · exact msSet_keys_nodup _ _ hs.ndAttempts
      · intro p hp
        rcases msSet_mem hp with h | h
        · exact hs.idsBelow p h
        · subst h; exact hs.idsBelow (a, att) hmem
      · intro p hp
        rcases msSet_mem hp with h | h
        · exact hs.portsBelow p h
        · subst h; exact hs.portsBelow (a, att) hmem
      · intro p hp q hq hlt
        rcases msSet_mem hp with h | h <;> rcases msSet_mem hq with h2 | h2
        · exact hs.portsMono p h q h2 hlt
        · subst h2; exact hs.portsMono p h (a, att) hmem hlt
        · subst h; exact hs.portsMono (a, att) hmem q h2 hlt
        · subst h; subst h2; exact absurd hlt (lt_irrefl _)
      · exact le_trans (msDelete_length_le _ _) hs.capacity
      · intro x attx hx hbx
        rw [msGet_msSet] at hx
        by_cases hax : a = x
        · simp [hax] at hx
          rw [← hx] at hbx
          simp at hbx
        · simp [hax] at hx
          exact hs.bindingNoResult x attx hx hbx
      · intro x attx hx hbx
        rw [msGet_msSet] at hx
        by_cases hax : a = x
        · simp [hax] at hx
          rw [← hx] at hbx
          simp at hbx
        · simp [hax] at hx
          exact hs.bindingPending x attx hx hbx
      · intro x attx hx hbx
        rw [msGet_msSet] at hx
        by_cases hax : a = x
        · simp [hax] at hx
          rw [← hx] at hbx
          simp at hbx
        · simp [hax] at hx
          by_cases hh : att.hostname = attx.hostname
          · exfalso
            have h1 := hs.bindingPending x attx hx hbx
            rw [← hh, hpend] at h1
            injection h1 with h1
            exact hax h1
          · rw [msGet_msDelete_ne _ _ _ hh]
            exact hs.bindingRecord x attx hx hbx
      · intro x attx hx hrx
        rw [msGet_msSet] at hx
        by_cases hax : a = x
        · simp [hax] at hx
          rw [← hx] at hrx
          simp at hrx
        · simp [hax] at hx
          exact hs.runningResult x attx hx hrx
      · intro x attx hx hrx
        rw [msGet_msSet] at hx
        by_cases hax : a = x
        · simp [hax] at hx
          rw [← hx] at hrx
          simp at hrx
        · simp [hax] at hx
          by_cases hh : att.hostname = attx.hostname
          · exfalso
            have h1 := hs.liveTask x attx hx (Or.inr hrx)
            rw [← hh, htask] at h1
            injection h1 with h1
            exact hax h1
          · rw [msGet_msDelete_ne _ _ _ hh]
            exact hs.runningRecord x attx hx hrx
      · intro h b hb
        by_cases hh : att.hostname = h
        · exfalso
          rw [← hh] at hb
          rw [msGet_msDelete_self _ _ hs.ndTasks] at hb
          cases hb
        · rw [msGet_msDelete_ne _ _ _ hh] at hb
          obtain ⟨attb, hab, hhb, hlb⟩ := hs.taskLive h b hb
          by_cases hba : b = a
          · exfalso
            subst hba
            rw [hatt] at hab
            injection hab with hab
            rw [← hab] at hhb
            exact hh hhb
          · refine ⟨attb, ?_, hhb, hlb⟩
            rw [msGet_msSet_ne _ _ _ _ (fun hh2 => hba hh2.symm)]
            exact hab
      · intro x attx hx hlx
        rw [msGet_msSet] at hx
        by_cases hax : a = x
        · simp [hax] at hx
          rw [← hx] at hlx
          rcases hlx with h1 | h1 <;> cases h1
        · simp [hax] at hx
          by_cases hh : att.hostname = attx.hostname
          · exfalso
            have h1 := hs.liveTask x attx hx hlx
            rw [← hh, htask] at h1
            injection h1 with h1
            exact hax h1
          · rw [msGet_msDelete_ne _ _ _ hh]
            exact hs.liveTask x attx hx hlx
      · intro h info hinfo
        by_cases hh : att.hostname = h
        · exfalso
          rw [← hh] at hinfo
          rw [msGet_msDelete_self _ _ hs.ndServers] at hinfo
          cases hinfo
        · rw [msGet_msDelete_ne _ _ _ hh] at hinfo
          obtain ⟨b, attb, htb, hab, hhb, hcb⟩ := hs.recordContent h info hinfo
          by_cases hba : b = a
          · exfalso
            subst hba
            rw [hatt] at hab
            injection hab with hab
            rw [← hab] at hhb
            exact hh hhb
          · refine ⟨b, attb, ?_, ?_, hhb, hcb⟩
            · rw [msGet_msDelete_ne _ _ _ hh]
              exact htb
            · rw [msGet_msSet_ne _ _ _ _ (fun hh2 => hba hh2.symm)]
              exact hab
      · intro h x b hxp htb
        by_cases hh : att.hostname = h
        · exfalso
          rw [← hh] at htb
          rw [msGet_msDelete_self _ _ hs.ndTasks] at htb
          cases htb
        · rw [msGet_msDelete_ne _ _ _ hh] at htb
          exact hs.pendingTaskAgree h x b hxp htb
      · intro x attx hx hcx
        rw [msGet_msSet] at hx
        by_cases hax : a = x
        · simp [hax] at hx
          subst hax
          rw [← hx]
          simp
        · simp [hax] at hx
          exact List.mem_append_left _ (hs.stoppedSent x attx hx hcx)
      · intro x h p hxp
        rcases List.mem_append.mp hxp with hxp | hxp
        · obtain ⟨attx, hax2, info, hres⟩ := hs.startedResult x h p hxp
          by_cases hax : a = x
          · exfalso
            subst hax
            rw [hatt] at hax2
            injection hax2 with hax2
            rw [← hax2] at hres
            rw [hs.bindingNoResult a att hatt hph] at hres
            cases hres
          · refine ⟨attx, ?_, info, hres⟩
            rw [msGet_msSet_ne _ _ _ _ hax]
            exact hax2
        · simp at hxp
    | running =>
      have hres0 := hs.runningResult a att hatt hph
      have htask := hs.liveTask a att hatt (Or.inr hph)
      simp only [stepD, step, hatt, hph, Option.getD_some, emitEvent]
      constructor
      · exact msDelete_keys_nodup _ hs.ndServers
      · exact msDelete_keys_nodup _ hs.ndTasks
      · exact hs.ndPending
      · exact msSet_keys_nodup _ _ hs.ndAttempts
      · intro p hp
        rcases msSet_mem hp with h | h
        · exact hs.idsBelow p h
        · subst h; exact hs.idsBelow (a, att) hmem
      · intro p hp
        rcases msSet_mem hp with h | h
        · exact hs.portsBelow p h
        · subst h; exact hs.portsBelow (a, att) hmem
      · intro p hp q hq hlt
        rcases msSet_mem hp with h | h <;> rcases msSet_mem hq with h2 | h2
        · exact hs.portsMono p h q h2 hlt
        · subst h2; exact hs.portsMono p h (a, att) hmem hlt
        · subst h; exact hs.portsMono (a, att) hmem q h2 hlt
        · subst h; subst h2; exact absurd hlt (lt_irrefl _)
      · exact le_trans (msDelete_length_le _ _) hs.capacity
      · intro x attx hx hbx
        rw [msGet_msSet] at hx
        by_cases hax : a = x
        · simp [hax] at hx
          rw [← hx] at hbx
          simp at hbx
        · simp [hax] at hx
          exact hs.bindingNoResult x attx hx hbx
      · intro x attx hx hbx
        rw [msGet_msSet] at hx
        by_cases hax : a = x
        · simp [hax] at hx
          rw [← hx] at hbx
          simp at hbx
        · simp [hax] at hx
          exact hs.bindingPending x attx hx hbx
      · intro x attx hx hbx
        rw [msGet_msSet] at hx
        by_cases hax : a = x
        · simp [hax] at hx
          rw [← hx] at hbx
          simp at hbx
        · simp [hax] at hx
          by_cases hh : att.hostname = attx.hostname
          · exfalso
            have h1 := hs.liveTask x attx hx (Or.inl hbx)
            rw [← hh, htask] at h1
            injection h1 with h1
            exact hax h1
          · rw [msGet_msDelete_ne _ _ _ hh]
            exact hs.bindingRecord x attx hx hbx
      · intro x attx hx hrx
        rw [msGet_msSet] at hx
        by_cases hax : a = x
        · simp [hax] at hx
          rw [← hx] at hrx
          simp at hrx
        · simp [hax] at hx
          exact hs.runningResult x attx hx hrx
      · intro x attx hx hrx
        rw [msGet_msSet] at hx
        by_cases hax : a = x
        · simp [hax] at hx
          rw [← hx] at hrx
          simp at hrx
        · simp [hax] at hx
          by_cases hh : att.hostname = attx.hostname
          · exfalso
            have h1 := hs.liveTask x attx hx (Or.inr hrx)
            rw [← hh, htask] at h1
            injection h1 with h1
            exact hax h1
          · rw [msGet_msDelete_ne _ _ _ hh]
            exact hs.runningRecord x attx hx hrx
      · intro h b hb
        by_cases hh : att.hostname = h
        · exfalso
          rw [← hh] at hb
          rw [msGet_msDelete_self _ _ hs.ndTasks] at hb
          cases hb
        · rw [msGet_msDelete_ne _ _ _ hh] at hb
          obtain ⟨attb, hab, hhb, hlb⟩ := hs.taskLive h b hb
          by_cases hba : b = a
          · exfalso
            subst hba
            rw [hatt] at hab
            injection hab with hab
            rw [← hab] at hhb
            exact hh hhb
          · refine ⟨attb, ?_, hhb, hlb⟩
            rw [msGet_msSet_ne _ _ _ _ (fun hh2 => hba hh2.symm)]
            exact hab
      · intro x attx hx hlx
        rw [msGet_msSet] at hx
        by_cases hax : a = x
        · simp [hax] at hx
          rw [← hx] at hlx
          rcases hlx with h1 | h1 <;> cases h1
        · simp [hax] at hx
          by_cases hh : att.hostname = attx.hostname
          · exfalso
            have h1 := hs.liveTask x attx hx hlx
            rw [← hh, htask] at h1
            injection h1 with h1
            exact hax h1
          · rw [msGet_msDelete_ne _ _ _ hh]
            exact hs.liveTask x attx hx hlx
      · intro h info hinfo
        by_cases hh : att.hostname = h
        · exfalso
          rw [← hh] at hinfo
          rw [msGet_msDelete_self _ _ hs.ndServers] at hinfo
          cases hinfo
        · rw [msGet_msDelete_ne _ _ _ hh] at hinfo
          obtain ⟨b, attb, htb, hab, hhb, hcb⟩ := hs.recordContent h info hinfo
          by_cases hba : b = a
          · exfalso
            subst hba
            rw [hatt] at hab
            injection hab with hab
            rw [← hab] at hhb
            exact hh hhb
          · refine ⟨b, attb, ?_, ?_, hhb, hcb⟩
            · rw [msGet_msDelete_ne _ _ _ hh]
              exact htb
            · rw [msGet_msSet_ne _ _ _ _ (fun hh2 => hba hh2.symm)]
              exact hab
      · intro h x b hxp htb
        by_cases hh : att.hostname = h
        · exfalso
          rw [← hh] at htb
          rw [msGet_msDelete_self _ _ hs.ndTasks] at htb
          cases htb
        · rw [msGet_msDelete_ne _ _ _ hh] at htb
          exact hs.pendingTaskAgree h x b hxp htb
      · intro x attx hx hcx
        rw [msGet_msSet] at hx
        by_cases hax : a = x
        · simp [hax] at hx
          subst hax
          rw [← hx]
          simp
        · simp [hax] at hx
          exact List.mem_append_left _ (hs.stoppedSent x attx hx hcx)
      · intro x h p hxp
        rcases List.mem_append.mp hxp with hxp | hxp
        · obtain ⟨attx, hax2, info, hres⟩ := hs.startedResult x h p hxp
          by_cases hax : a = x
          · subst hax
            refine ⟨_, msGet_msSet_self _ _ _, info, ?_⟩
            rw [hatt] at hax2
            injection hax2 with hax2
            rw [← hax2] at hres
            exact hres
          · refine ⟨attx, ?_, info, hres⟩
            rw [msGet_msSet_ne _ _ _ _ hax]
            exact hax2
        · simp at hxp

end Hydra

namespace Hydra

theorem inv_stepD_crash {s : PoolState} (hs : Inv s) (a : Nat) (msg : String) :
    Inv (stepD s (.crash a msg)) := by
  cases hatt : msGet s.attempts a with
  | none => simpa [stepD, step, hatt] using hs
  | some att =>
    by_cases hph : att.phase = .running
    · have hmem : (a, att) ∈ s.attempts := msGet_eq_some_mem hatt
      have htask := hs.liveTask a att hatt (Or.inr hph)
      simp only [stepD, step, hatt, if_pos hph, Option.getD_some, emitEvent]
      constructor
      · exact msDelete_keys_nodup _ hs.ndServers
      · exact msDelete_keys_nodup _ hs.ndTasks
      · exact hs.ndPending
      · exact msSet_keys_nodup _ _ hs.ndAttempts
      · intro p hp
        rcases msSet_mem hp with h | h
        · exact hs.idsBelow p h
        · subst h; exact hs.idsBelow (a, att) hmem
      · intro p hp
        rcases msSet_mem hp with h | h
        · exact hs.portsBelow p h
        · subst h; exact hs.portsBelow (a, att) hmem
      · intro p hp q hq hlt
        rcases msSet_mem hp with h | h <;> rcases msSet_mem hq with h2 | h2
        · exact hs.portsMono p h q h2 hlt
        · subst h2; exact hs.portsMono p h (a, att) hmem hlt
        · subst h; exact hs.portsMono (a, att) hmem q h2 hlt
        · subst h; subst h2; exact absurd hlt (lt_irrefl _)
      · exact le_trans (msDelete_length_le _ _) hs.capacity
      · intro x attx hx hbx
        rw [msGet_msSet] at hx
        by_cases hax : a = x
        · simp [hax] at hx
          rw [← hx] at hbx
          simp at hbx
        · simp [hax] at hx
          exact hs.bindingNoResult x attx hx hbx
      · intro x attx hx hbx
        rw [msGet_msSet] at hx
        by_cases hax : a = x
        · simp [hax] at hx
          rw [← hx] at hbx
          simp at hbx
        · simp [hax] at hx
          exact hs.bindingPending x attx hx hbx
      · intro x attx hx hbx
        rw [msGet_msSet] at hx
        by_cases hax : a = x
        · simp [hax] at hx
          rw [← hx] at hbx
          simp at hbx
        · simp [hax] at hx
          by_cases hh : att.hostname = attx.hostname
          · exfalso
            have h1 := hs.liveTask x attx hx (Or.inl hbx)
            rw [← hh, htask] at h1
            injection h1 with h1
            exact hax h1
          · rw [msGet_msDelete_ne _ _ _ hh]
            exact hs.bindingRecord x attx hx hbx
      · intro x attx hx hrx
        rw [msGet_msSet] at hx
        by_cases hax : a = x
        · simp [hax] at hx
          rw [← hx] at hrx
          simp at hrx
        · simp [hax] at hx
          exact hs.runningResult x attx hx hrx
      · intro x attx hx hrx
        rw [msGet_msSet] at hx
        by_cases hax : a = x
        · simp [hax] at hx
          rw [← hx] at hrx
          simp at hrx
        · simp [hax] at hx
          by_cases hh : att.hostname = attx.hostname
          · exfalso
            have h1 := hs.liveTask x attx hx (Or.inr hrx)
            rw [← hh, htask] at h1
            injection h1 with h1
            exact hax h1
          · rw [msGet_msDelete_ne _ _ _ hh]
            exact hs.runningRecord x attx hx hrx
      · intro h b hb
        by_cases hh : att.hostname = h
        · exfalso
          rw [← hh] at hb
          rw [msGet_msDelete_self _ _ hs.ndTasks] at hb
          cases hb
        · rw [msGet_msDelete_ne _ _ _ hh] at hb
          obtain ⟨attb, hab, hhb, hlb⟩ := hs.taskLive h b hb
          by_cases hba : b = a
          · exfalso
            subst hba
            rw [hatt] at hab
            injection hab with hab
            rw [← hab] at hhb
            exact hh hhb
          · refine ⟨attb, ?_, hhb, hlb⟩
            rw [msGet_msSet_ne _ _ _ _ (fun hh2 => hba hh2.symm)]
            exact hab
      · intro x attx hx hlx
        rw [msGet_msSet] at hx
        by_cases hax : a = x
        · simp [hax] at hx
          rw [← hx] at hlx
          rcases hlx with h1 | h1 <;> cases h1
        · simp [hax] at hx
          by_cases hh : att.hostname = attx.hostname
          · exfalso
            have h1 := hs.liveTask x attx hx hlx
            rw [← hh, htask] at h1
            injection h1 with h1
            exact hax h1
          · rw [msGet_msDelete_ne _ _ _ hh]
            exact hs.liveTask x attx hx hlx
      · intro h info hinfo
        by_cases hh : att.hostname = h
        · exfalso
          rw [← hh] at hinfo
          rw [msGet_msDelete_self _ _ hs.ndServers] at hinfo
          cases hinfo
        · rw [msGet_msDelete_ne _ _ _ hh] at hinfo
          obtain ⟨b, attb, htb, hab, hhb, hcb⟩ := hs.recordContent h info hinfo
          by_cases hba : b = a
          · exfalso
            subst hba
            rw [hatt] at hab
            injection hab with hab
            rw [← hab] at hhb
            exact hh hhb
          · refine ⟨b, attb, ?_, ?_, hhb, hcb⟩
            · rw [msGet_msDelete_ne _ _ _ hh]
              exact htb
            · rw [msGet_msSet_ne _ _ _ _ (fun hh2 => hba hh2.symm)]
              exact hab
      · intro h x b hxp htb
        by_cases hh : att.hostname = h
        · exfalso
          rw [← hh] at htb
          rw [msGet_msDelete_self _ _ hs.ndTasks] at htb
          cases htb
        · rw [msGet_msDelete_ne _ _ _ hh] at htb
          exact hs.pendingTaskAgree h x b hxp htb
      · intro x attx hx hcx
        rw [msGet_msSet] at hx
        by_cases hax : a = x
        · simp [hax] at hx
          subst hax
          rw [← hx]
          simp
        · simp [hax] at hx
          exact List.mem_append_left _
            (List.mem_append_left _ (hs.stoppedSent x attx hx hcx))
      · intro x h p hxp
        rcases List.mem_append.mp hxp with hxp | hxp
        · rcases List.mem_append.mp hxp with hxp | hxp
          · obtain ⟨attx, hax2, info, hres⟩ := hs.startedResult x h p hxp
            by_cases hax : a = x
            · subst hax
              refine ⟨_, msGet_msSet_self _ _ _, info, ?_⟩
              rw [hatt] at hax2
              injection hax2 with hax2
              rw [← hax2] at hres
              exact hres
            · refine ⟨attx, ?_, info, hres⟩
              rw [msGet_msSet_ne _ _ _ _ hax]
              exact hax2
          · simp at hxp
        · simp at hxp
    · simpa [stepD, step, hatt, hph] using hs

end Hydra

namespace Hydra

theorem inv_getOrCreateSlow {s : PoolState} (hs : Inv s) (h : String)
    (hnr : ∀ info, msGet s.servers h = some info → info.serverPresent = false) :
    Inv (getOrCreateSlow s h).2 := by
  cases hp : msGet s.pendingCreations h with
  | some a => simpa [getOrCreateSlow, hp] using hs
  | none =>
    by_cases hcap : s.servers.length ≥ s.maxServers
    · simp only [getOrCreateSlow, hp, if_pos hcap, emitEvent]
      constructor
      · exact hs.ndServers
      · exact hs.ndTasks
      · exact hs.ndPending
      · exact hs.ndAttempts
      · exact hs.idsBelow
      · exact hs.portsBelow
      · exact hs.portsMono
      · exact hs.capacity
      · exact hs.bindingNoResult
      · exact hs.bindingPending
      · exact hs.bindingRecord
      · exact hs.runningResult
      · exact hs.runningRecord
      · exact hs.taskLive
      · exact hs.liveTask
      · exact hs.recordContent
      · exact hs.pendingTaskAgree
      · intro x attx hx hcx
        exact List.mem_append_left _ (hs.stoppedSent x attx hx hcx)
      · intro x h2 p hxp
        rcases List.mem_append.mp hxp with hxp | hxp
        · exact hs.startedResult x h2 p hxp
        · simp at hxp
    · have hfreshA : msGet s.attempts s.nextAttemptId = none := by
        cases hq : msGet s.attempts s.nextAttemptId with
        | some att =>
          exact absurd (hs.idsBelow _ (msGet_eq_some_mem hq)) (lt_irrefl _)
        | none => rfl
      simp only [getOrCreateSlow, hp, if_neg hcap]
      constructor
      · exact msSet_keys_nodup _ _ hs.ndServers
      · exact msSet_keys_nodup _ _ hs.ndTasks
      · exact msSet_keys_nodup _ _ hs.ndPending
      · exact msSet_keys_nodup _ _ hs.ndAttempts
      · intro p hp2
        rcases msSet_mem hp2 with h2 | h2
        · exact Nat.lt_succ_of_lt (hs.idsBelow p h2)
        · subst h2; exact Nat.lt_succ_self _
      · intro p hp2
        rcases msSet_mem hp2 with h2 | h2
        · exact Nat.lt_succ_of_lt (hs.portsBelow p h2)
        · subst h2; exact Nat.lt_succ_self _
      · intro p hp2 q hq hlt
        rcases msSet_mem hp2 with h2 | h2 <;> rcases msSet_mem hq with h3 | h3
        · exact hs.portsMono p h2 q h3 hlt
        · subst h3; exact hs.portsBelow p h2
        · subst h2
          have hlt2 : s.nextAttemptId < q.1 := hlt
          have := hs.idsBelow q h3
          omega
        · subst h2; subst h3; exact absurd hlt (lt_irrefl _)
      · cases hsv : msGet s.servers h with
        | some info =>
          rw [msSet_length_of_mem _ _ _ (by rw [hsv]; rfl)]
          exact hs.capacity
        | none =>
          rw [msSet_length_of_not_mem _ _ _ hsv]
          show s.servers.length + 1 ≤ s.maxServers
          omega
      · intro x attx hx hbx
        rw [msGet_msSet] at hx
        by_cases hax : s.nextAttemptId = x
        · simp [hax] at hx
          rw [← hx]
        · simp [hax] at hx
          exact hs.bindingNoResult x attx hx hbx
      · intro x attx hx hbx
        rw [msGet_msSet] at hx
        by_cases hax : s.nextAttemptId = x
        · simp [hax] at hx
          rw [← hx]
          rw [← hax]
          exact msGet_msSet_self _ _ _
        · simp [hax] at hx
          by_cases hh : h = attx.hostname
          · exfalso
            have h1 := hs.bindingPending x attx hx hbx
            rw [← hh, hp] at h1
            cases h1
          · rw [msGet_msSet_ne _ _ _ _ hh]
            exact hs.bindingPending x attx hx hbx
      · intro x attx hx hbx
        rw [msGet_msSet] at hx
        by_cases hax : s.nextAttemptId = x
        · simp [hax] at hx
          rw [← hx]
          exact msGet_msSet_self _ _ _
        · simp [hax] at hx
          by_cases hh : h = attx.hostname
          · exfalso
            have h1 := hs.bindingPending x attx hx hbx
            rw [← hh, hp] at h1
            cases h1
          · rw [msGet_msSet_ne _ _ _ _ hh]
            exact hs.bindingRecord x attx hx hbx
      · intro x attx hx hrx
        rw [msGet_msSet] at hx
        by_cases hax : s.nextAttemptId = x
        · simp [hax] at hx
          rw [← hx] at hrx
          simp at hrx
        · simp [hax] at hx
          exact hs.runningResult x attx hx hrx
      · intro x attx hx hrx
        rw [msGet_msSet] at hx
        by_cases hax : s.nextAttemptId = x
        · simp [hax] at hx
          rw [← hx] at hrx
          simp at hrx
        · simp [hax] at hx
          by_cases hh : h = attx.hostname
          · exfalso
            have h1 := hs.runningRecord x attx hx hrx
            rw [← hh] at h1
            have h2 := hnr _ h1
            simp [readyInfo] at h2
          · rw [msGet_msSet_ne _ _ _ _ hh]
            exact hs.runningRecord x attx hx hrx
      · intro h2 b hb
        rw [msGet_msSet] at hb
        by_cases hh : h = h2
        · simp [hh] at hb
          subst hh
          subst hb
          exact ⟨_, msGet_msSet_self _ _ _, rfl, Or.inl rfl⟩
        · simp [hh] at hb
          obtain ⟨attb, hab, hhb, hlb⟩ := hs.taskLive h2 b hb
          have hbne : b ≠ s.nextAttemptId :=
            fun hq => absurd (hq ▸ hs.idsBelow _ (msGet_eq_some_mem hab)) (lt_irrefl _)
          refine ⟨attb, ?_, hhb, hlb⟩
          rw [msGet_msSet_ne _ _ _ _ (fun hq => hbne hq.symm)]
          exact hab
      · intro x attx hx hlx
        rw [msGet_msSet] at hx
        by_cases hax : s.nextAttemptId = x
        · simp [hax] at hx
          rw [← hx]
          rw [← hax]
          exact msGet_msSet_self _ _ _
        · simp [hax] at hx
          by_cases hh : h = attx.hostname
          · exfalso
            rcases hlx with hbx | hrx
            · have h1 := hs.bindingPending x attx hx hbx
              rw [← hh, hp] at h1
              cases h1
            · have h1 := hs.runningRecord x attx hx hrx
              rw [← hh] at h1
              have h2 := hnr _ h1
              simp [readyInfo] at h2
          · rw [msGet_msSet_ne _ _ _ _ hh]
            exact hs.liveTask x attx hx hlx
      · intro h2 info hinfo
        rw [msGet_msSet] at hinfo
        by_cases hh : h = h2
        · simp [hh] at hinfo
          subst hh
          exact ⟨s.nextAttemptId, _, msGet_msSet_self _ _ _, msGet_msSet_self _ _ _, rfl,
            Or.inl ⟨rfl, hinfo.symm⟩⟩
        · simp [hh] at hinfo
          obtain ⟨b, attb, htb, hab, hhb, hcb⟩ := hs.recordContent h2 info hinfo
          have hbne : b ≠ s.nextAttemptId :=
            fun hq => absurd (hq ▸ hs.idsBelow _ (msGet_eq_some_mem hab)) (lt_irrefl _)
          refine ⟨b, attb, ?_, ?_, hhb, hcb⟩
          · rw [msGet_msSet_ne _ _ _ _ hh]
            exact htb
          · rw [msGet_msSet_ne _ _ _ _ (fun hq => hbne hq.symm)]
            exact hab
      · intro h2 x b hxp htb
        rw [msGet_msSet] at hxp
        rw [msGet_msSet] at htb
        by_cases hh : h = h2
        · simp [hh] at hxp htb
          rw [← hxp, ← htb]
        · simp [hh] at hxp htb
          exact hs.pendingTaskAgree h2 x b hxp htb
      · intro x attx hx hcx
        rw [msGet_msSet] at hx
        by_cases hax : s.nextAttemptId = x
        · simp [hax] at hx
          rw [← hx] at hcx
          rcases hcx with h1 | h1 <;> cases h1
        · simp [hax] at hx
          exact hs.stoppedSent x attx hx hcx
      · intro x h2 p hxp
        obtain ⟨attx, hax2, info, hres⟩ := hs.startedResult x h2 p hxp
        have hxne : x ≠ s.nextAttemptId :=
          fun hq => absurd (hq ▸ hs.idsBelow _ (msGet_eq_some_mem hax2)) (lt_irrefl _)
        refine ⟨attx, ?_, info, hres⟩
        rw [msGet_msSet_ne _ _ _ _ (fun hq => hxne hq.symm)]
        exact hax2

theorem inv_stepD_callStart {s : PoolState} (hs : Inv s) (h : String) :
    Inv (stepD s (.callStart h)) := by
  simp only [stepD, step, Option.getD_some]
  cases hsv : msGet s.servers h with
  | some existing =>
    by_cases hr : existing.serverPresent = true
    · simpa [getOrCreateStart, hsv, hr] using hs
    · simp only [getOrCreateStart, hsv, hr, Bool.false_eq_true, if_false]
      exact inv_getOrCreateSlow hs h (fun info hinfo => by
        rw [hsv] at hinfo
        injection hinfo with hinfo
        rw [← hinfo]
        simpa using hr)
  | none =>
    simp only [getOrCreateStart, hsv]
    exact inv_getOrCreateSlow hs h (fun info hinfo => by rw [hsv] at hinfo; cases hinfo)

/-- Every scheduler step preserves the invariants. -/
theorem inv_stepD {s : PoolState} (hs : Inv s) (l : Label) : Inv (stepD s l) := by
  cases l with
  | callStart h => exact inv_stepD_callStart hs h
  | listenOk a => exact inv_stepD_listenOk hs a
  | listenFail a msg => exact inv_stepD_listenFail hs a msg
  | settled a => exact inv_stepD_settled hs a
  | haltBegin a => exact inv_stepD_haltBegin hs a
  | closeOk a => exact inv_stepD_closeOk hs a
  | crash a msg => exact inv_stepD_crash hs a msg
  | closeBus => exact inv_stepD_closeBus hs

theorem inv_runLabels {s : PoolState} (hs : Inv s) (ls : List Label) :
    Inv (runLabels s ls) := by
  induction ls generalizing s with
  | nil => exact hs
  | cons l rest ih => exact ih (inv_stepD hs l)

/-- The invariants hold in every reachable state of a pool. -/
theorem inv_reachable (basePort maxServers : Nat) (ls : List Label) :
    Inv (runLabels (initState basePort maxServers) ls) :=
  inv_runLabels (inv_init basePort maxServers) ls

end Hydra

namespace Hydra

theorem stepD_maxServers (s : PoolState) (l : Label) :
    (stepD s l).maxServers = s.maxServers := by
  cases l <;>
    simp only [stepD, step, getOrCreateStart, getOrCreateSlow, emitEvent] <;>
    (repeat' split) <;> simp

theorem runLabels_maxServers (s : PoolState) (ls : List Label) :
    (runLabels s ls).maxServers = s.maxServers := by
  induction ls generalizing s with
  | nil => rfl
  | cons l rest ih => rw [runLabels, List.foldl_cons, ← runLabels, ih, stepD_maxServers]

/-- Once the event signal is closed, nothing is published any more. -/
theorem stepD_busClosed_frozen (s : PoolState) (l : Label) (hb : s.busClosed = true) :
    (stepD s l).published = s.published ∧ (stepD s l).busClosed = true := by
  cases l <;>
    simp only [stepD, step, getOrCreateStart, getOrCreateSlow, emitEvent] <;>
    (repeat' split) <;> simp [hb]

theorem msSet_fresh_append {κ α : Type} [DecidableEq κ] {m : List (κ × α)} {x : κ} (v : α)
    (hx : msGet m x = none) : msSet m x v = m ++ [(x, v)] := by
  induction m with
  | nil => simp [msSet]
  | cons p rest ih =>
    obtain ⟨k₁, v₁⟩ := p
    by_cases hk : k₁ = x
    · rw [msGet, if_pos hk] at hx
      cases hx
    · rw [msGet, if_neg hk] at hx
      simp [msSet, hk, ih hx]

/-- The synchronous segment of `getOrCreate(k)` for a never-seen key under
the capacity cap: one port is consumed, the placeholder record, the task,
the pending entry and the attempt are registered, all in this single
atomic segment. -/
theorem getOrCreateStart_create {s : PoolState} {k : String}
    (hrec : msGet s.servers k = none) (hpend : msGet s.pendingCreations k = none)
    (hcap : s.servers.length < s.maxServers) :
    getOrCreateStart s k = (.newAttempt s.nextAttemptId s.nextPort,
      { s with
        nextPort := s.nextPort + 1
        nextAttemptId := s.nextAttemptId + 1
        servers := msSet s.servers k (placeholderInfo k s.nextPort)
        serverTasks := msSet s.serverTasks k s.nextAttemptId
        pendingCreations := msSet s.pendingCreations k s.nextAttemptId
        attempts := msSet s.attempts s.nextAttemptId
          { hostname := k, port := s.nextPort, phase := .binding, result := none } }) := by
  rw [getOrCreateStart, hrec, getOrCreateSlow, hpend]
  simp [hcap, Nat.not_le_of_lt hcap]

/-- A pending creation entry survives every step other than the `finally`
of the callers awaiting that same attempt. -/
theorem pending_persist {s : PoolState} {k : String} {a : Nat}
    (hp : msGet s.pendingCreations k = some a) (l : Label) (hne : l ≠ .settled a) :
    msGet (stepD s l).pendingCreations k = some a := by
  cases l with
  | callStart h =>
    have hslow : msGet (getOrCreateSlow s h).2.pendingCreations k = some a := by
      cases hpd : msGet s.pendingCreations h with
      | some b => simp [getOrCreateSlow, hpd, hp]
      | none =>
        by_cases hcap : s.servers.length ≥ s.maxServers
        · simp [getOrCreateSlow, hpd, hcap, emitEvent, hp]
        · by_cases hh : h = k
          · subst hh
            rw [hpd] at hp
            cases hp
          · simp only [getOrCreateSlow, hpd, if_neg hcap]
            rw [msGet_msSet_ne _ _ _ _ hh]
            exact hp
    simp only [stepD, step, Option.getD_some, getOrCreateStart]
    cases hsv : msGet s.servers h with
    | some existing =>
      by_cases hr : existing.serverPresent = true
      · simp [hr, hp]
      · simpa [hr] using hslow
    | none => exact hslow
  | listenOk b =>
    cases hatt : msGet s.attempts b with
    | none => simpa [stepD, step, hatt] using hp
    | some att =>
      by_cases hph : att.phase = .binding
      · simpa [stepD, step, hatt, hph, emitEvent] using hp
      · simpa [stepD, step, hatt, hph] using hp
  | listenFail b msg =>
    cases hatt : msGet s.attempts b with
    | none => simpa [stepD, step, hatt] using hp
    | some att =>
      by_cases hph : att.phase = .binding
      · simpa [stepD, step, hatt, hph, emitEvent] using hp
      · simpa [stepD, step, hatt, hph] using hp
  | settled b =>
    cases hatt : msGet s.attempts b with
    | none => simpa [stepD, step, hatt] using hp
    | some att =>
      by_cases hc : att.result.isSome ∧ msGet s.pendingCreations att.hostname = some b
      · simp only [stepD, step, hatt, if_pos hc, Option.getD_some]
        by_cases hh : att.hostname = k
        · exfalso
          rw [hh, hp] at hc
          injection hc.2 with h2
          exact hne (by rw [h2])
        · rw [msGet_msDelete_ne _ _ _ hh]
          exact hp
      · simpa [stepD, step, hatt, hc] using hp
  | haltBegin b =>
    cases hatt : msGet s.attempts b with
    | none => simpa [stepD, step, hatt] using hp
    | some att =>
      cases hph : att.phase <;> simpa [stepD, step, hatt, hph, emitEvent] using hp
  | closeOk b =>
    cases hatt : msGet s.attempts b with
    | none => simpa [stepD, step, hatt] using hp
    | some att =>
      by_cases hph : att.phase = .closing
      · simpa [stepD, step, hatt, hph] using hp
      · simpa [stepD, step, hatt, hph] using hp
  | crash b msg =>
    cases hatt : msGet s.attempts b with
    | none => simpa [stepD, step, hatt] using hp
    | some att =>
      by_cases hph : att.phase = .running
      · simpa [stepD, step, hatt, hph, emitEvent] using hp
      · simpa [stepD, step, hatt, hph] using hp
  | closeBus => simpa [stepD, step] using hp

theorem pending_persist_run {s : PoolState} {k : String} {a : Nat}
    (hp : msGet s.pendingCreations k = some a) (ls : List Label)
    (hno : Label.settled a ∉ ls) :
    msGet (runLabels s ls).pendingCreations k = some a := by
  induction ls generalizing s with
  | nil => exact hp
  | cons l rest ih =>
    rw [runLabels, List.foldl_cons, ← runLabels]
    refine ih (pending_persist hp l ?_) (fun hm => hno (List.mem_cons_of_mem _ hm))
    intro hl
    exact hno (hl ▸ List.mem_cons_self _ _)

end Hydra

namespace Hydra

/-- Identifiers of the provisioning attempts ever started for a key, in
creation order. -/
def attemptIdsFor (s : PoolState) (k : String) : List Nat :=
  (s.attempts.filter (fun p => p.2.hostname = k)).map Prod.fst

theorem attemptIdsFor_msSet_update {m : List (Nat × Attempt)} {x : Nat} {att att' : Attempt}
    (hx : msGet m x = some att) (hh : att'.hostname = att.hostname) (k : String) :
    ((msSet m x att').filter (fun p => p.2.hostname = k)).map Prod.fst
      = (m.filter (fun p => p.2.hostname = k)).map Prod.fst := by
  induction m with
  | nil => cases hx
  | cons p rest ih =>
    obtain ⟨x₁, v₁⟩ := p
    by_cases hk : x₁ = x
    · rw [msGet, if_pos hk] at hx
      injection hx with hx
      subst hx
      subst hk
      simp only [msSet, if_pos rfl]
      by_cases hhk : v₁.hostname = k
      · have hhk2 : att'.hostname = k := hh.trans hhk
        simp [List.filter_cons, hhk, hhk2]
      · have hhk2 : ¬ att'.hostname = k := fun hq => hhk (hh.symm.trans hq)
        simp [List.filter_cons, hhk, hhk2]
    · rw [msGet, if_neg hk] at hx
      simp only [msSet, if_neg hk]
      by_cases hhk : v₁.hostname = k
      · simp [List.filter_cons, hhk, ih hx]
      · simp [List.filter_cons, hhk, ih hx]

/-- No step starts a second provisioning attempt for a key that still has
a pending creation: the list of attempt identifiers for that key is
unchanged by every step. -/
theorem attemptIdsFor_stepD {s : PoolState} (hs : Inv s) {k : String} {a : Nat}
    (hp : msGet s.pendingCreations k = some a) (l : Label) :
    attemptIdsFor (stepD s l) k = attemptIdsFor s k := by
  cases l with
  | callStart h =>
    have hslow : attemptIdsFor (getOrCreateSlow s h).2 k = attemptIdsFor s k := by
      cases hpd : msGet s.pendingCreations h with
      | some b => simp [getOrCreateSlow, hpd, attemptIdsFor]
      | none =>
        by_cases hcap : s.servers.length ≥ s.maxServers
        · simp [getOrCreateSlow, hpd, hcap, emitEvent, attemptIdsFor]
        · have hh : h ≠ k := by
            intro hq
            subst hq
            rw [hpd] at hp
            cases hp
          have hfreshA : msGet s.attempts s.nextAttemptId = none := by
            cases hq : msGet s.attempts s.nextAttemptId with
            | some att =>
              exact absurd (hs.idsBelow _ (msGet_eq_some_mem hq)) (lt_irrefl _)
            | none => rfl
          simp only [getOrCreateSlow, hpd, if_neg hcap, attemptIdsFor]
          rw [msSet_fresh_append _ hfreshA]
          simp [List.filter_append, hh]
    simp only [stepD, step, Option.getD_some, getOrCreateStart]
    cases hsv : msGet s.servers h with
    | some existing =>
      by_cases hr : existing.serverPresent = true
      · simp [hr, attemptIdsFor]
      · simpa [hr] using hslow
    | none => exact hslow
  | listenOk b =>
    cases hatt : msGet s.attempts b with
    | none => simp [stepD, step, hatt]
    | some att =>
      by_cases hph : att.phase = .binding
      · simp only [stepD, step, hatt, if_pos hph, Option.getD_some, emitEvent, attemptIdsFor]
        refine attemptIdsFor_msSet_update hatt ?_ k
        rfl
      · simp [stepD, step, hatt, hph]
  | listenFail b msg =>
    cases hatt : msGet s.attempts b with
    | none => simp [stepD, step, hatt]
    | some att =>
      by_cases hph : att.phase = .binding
      · simp only [stepD, step, hatt, if_pos hph, Option.getD_some, emitEvent, attemptIdsFor]
        refine attemptIdsFor_msSet_update hatt ?_ k
        rfl
      · simp [stepD, step, hatt, hph]
  | settled b =>
    cases hatt : msGet s.attempts b with
    | none => simp [stepD, step, hatt]
    | some att =>
      by_cases hc : att.result.isSome ∧ msGet s.pendingCreations att.hostname = some b
      · simp [stepD, step, hatt, hc, attemptIdsFor]
      · simp [stepD, step, hatt, hc]
  | haltBegin b =>
    cases hatt : msGet s.attempts b with
    | none => simp [stepD, step, hatt]
    | some att =>
      cases hph : att.phase with
      | binding =>
        simp only [stepD, step, hatt, hph, Option.getD_some, emitEvent, attemptIdsFor]
        refine attemptIdsFor_msSet_update hatt ?_ k
        rfl
      | running =>
        simp only [stepD, step, hatt, hph, Option.getD_some, emitEvent, attemptIdsFor]
        refine attemptIdsFor_msSet_update hatt ?_ k
        rfl
      | closing => simp [stepD, step, hatt, hph]
      | done => simp [stepD, step, hatt, hph]
  | closeOk b =>
    cases hatt : msGet s.attempts b with
    | none => simp [stepD, step, hatt]
    | some att =>
      by_cases hph : att.phase = .closing
      · simp only [stepD, step, hatt, if_pos hph, Option.getD_some, attemptIdsFor]
        refine attemptIdsFor_msSet_update hatt ?_ k
        rfl
      · simp [stepD, step, hatt, hph]
  | crash b msg =>
    cases hatt : msGet s.attempts b with
    | none => simp [stepD, step, hatt]
    | some att =>
      by_cases hph : att.phase = .running
      · simp only [stepD, step, hatt, if_pos hph, Option.getD_some, emitEvent, attemptIdsFor]
        refine attemptIdsFor_msSet_update hatt ?_ k
        rfl
      · simp [stepD, step, hatt, hph]
  | closeBus => simp [stepD, step, attemptIdsFor]

theorem attemptIdsFor_run {s : PoolState} (hs : Inv s) {k : String} {a : Nat}
    (hp : msGet s.pendingCreations k = some a) (ls : List Label)
    (hno : Label.settled a ∉ ls) :
    attemptIdsFor (runLabels s ls) k = attemptIdsFor s k := by
  induction ls generalizing s with
  | nil => rfl
  | cons l rest ih =>
    rw [runLabels, List.foldl_cons, ← runLabels]
    have hne : l ≠ .settled a := fun hl => hno (hl ▸ List.mem_cons_self _ _)
    rw [ih (inv_stepD hs l) (pending_persist hp l hne)
      (fun hm => hno (List.mem_cons_of_mem _ hm))]
    exact attemptIdsFor_stepD hs hp l

end Hydra

namespace Hydra

/-- Once an attempt's lifecycle task has left its start-up phases
(`closing` or `done`), no step ever brings it back, and no `started`
event is ever emitted on its behalf. -/
theorem never_started_stepD {s : PoolState} (hs : Inv s) {a : Nat}
    (hA : ∃ att, msGet s.attempts a = some att ∧
      (att.phase = .closing ∨ att.phase = .done))
    (hB : ∀ h p, (some a, ServerEvent.started h p) ∉ s.sends) (l : Label) :
    (∃ att, msGet (stepD s l).attempts a = some att ∧
      (att.phase = .closing ∨ att.phase = .done)) ∧
    (∀ h p, (some a, ServerEvent.started h p) ∉ (stepD s l).sends) := by
  obtain ⟨att, hatt, hph⟩ := hA
  have hne_binding : att.phase ≠ .binding := by
    rcases hph with h1 | h1 <;> rw [h1] <;> intro h2 <;> cases h2
  have hne_running : att.phase ≠ .running := by
    rcases hph with h1 | h1 <;> rw [h1] <;> intro h2 <;> cases h2
  cases l with
  | callStart h =>
    have hfreshne : ∀ x : Nat, msGet s.attempts x = none → a ≠ x := by
      intro x hx hq
      rw [hq, hx] at hatt
      cases hatt
    have hslow :
        (∃ att2, msGet (getOrCreateSlow s h).2.attempts a = some att2 ∧
          (att2.phase = .closing ∨ att2.phase = .done)) ∧
        (∀ h2 p, (some a, ServerEvent.started h2 p) ∉ (getOrCreateSlow s h).2.sends) := by
      cases hpd : msGet s.pendingCreations h with
      | some b => exact ⟨⟨att, by simpa [getOrCreateSlow, hpd] using hatt, hph⟩,
          by simpa [getOrCreateSlow, hpd] using hB⟩
      | none =>
        by_cases hcap : s.servers.length ≥ s.maxServers
        · refine ⟨⟨att, by simpa [getOrCreateSlow, hpd, hcap, emitEvent] using hatt, hph⟩, ?_⟩
          intro h2 p hmem
          simp only [getOrCreateSlow, hpd, if_pos hcap, emitEvent, List.mem_append] at hmem
          rcases hmem with hmem | hmem
          · exact hB h2 p hmem
          · simp at hmem
        · have hfrA : msGet s.attempts s.nextAttemptId = none := by
            cases hq : msGet s.attempts s.nextAttemptId with
            | some att2 =>
              exact absurd (hs.idsBelow _ (msGet_eq_some_mem hq)) (lt_irrefl _)
            | none => rfl
          refine ⟨⟨att, ?_, hph⟩, by simpa [getOrCreateSlow, hpd, hcap] using hB⟩
          simp only [getOrCreateSlow, hpd, if_neg hcap]
          rw [msGet_msSet_ne _ _ _ _ (fun hq => hfreshne _ hfrA hq.symm)]
          exact hatt
    simp only [stepD, step, Option.getD_some, getOrCreateStart]
    cases hsv : msGet s.servers h with
    | some existing =>
      by_cases hr : existing.serverPresent = true
      · exact ⟨⟨att, by simpa [hr] using hatt, hph⟩, by simpa [hr] using hB⟩
      · simpa [hr] using hslow
    | none => exact hslow
  | listenOk b =>
    cases hatt2 : msGet s.attempts b with
    | none => exact ⟨⟨att, by simpa [stepD, step, hatt2] using hatt, hph⟩,
        by simpa [stepD, step, hatt2] using hB⟩
    | some attb =>
      by_cases hphb : attb.phase = .binding
      · have hab : a ≠ b := by
          intro hq
          subst hq
          rw [hatt] at hatt2
          injection hatt2 with hatt2
          rw [← hatt2] at hphb
          exact hne_binding hphb
        simp only [stepD, step, hatt2, if_pos hphb, Option.getD_some, emitEvent]
        refine ⟨⟨att, ?_, hph⟩, ?_⟩
        · rw [msGet_msSet_ne _ _ _ _ (fun hq => hab hq.symm)]
          exact hatt
        · intro h2 p hmem
          rcases List.mem_append.mp hmem with hmem | hmem
          · exact hB h2 p hmem
          · simp only [List.mem_singleton, Prod.mk.injEq] at hmem
            injection hmem.1 with hq
            exact hab hq
      · exact ⟨⟨att, by simpa [stepD, step, hatt2, hphb] using hatt, hph⟩,
          by simpa [stepD, step, hatt2, hphb] using hB⟩
  | listenFail b msg =>
    cases hatt2 : msGet s.attempts b with
    | none => exact ⟨⟨att, by simpa [stepD, step, hatt2] using hatt, hph⟩,
        by simpa [stepD, step, hatt2] using hB⟩
    | some attb =>
      by_cases hphb : attb.phase = .binding
      · have hab : a ≠ b := by
          intro hq
          subst hq
          rw [hatt] at hatt2
          injection hatt2 with hatt2
          rw [← hatt2] at hphb
          exact hne_binding hphb
        simp only [stepD, step, hatt2, if_pos hphb, Option.getD_some, emitEvent]
        refine ⟨⟨att, ?_, hph⟩, ?_⟩
        · rw [msGet_msSet_ne _ _ _ _ (fun hq => hab hq.symm)]
          exact hatt
        · intro h2 p hmem
          rcases List.mem_append.mp hmem with hmem | hmem
          · rcases List.mem_append.mp hmem with hmem | hmem
            · exact hB h2 p hmem
            · simp at hmem
          · simp at hmem
      · exact ⟨⟨att, by simpa [stepD, step, hatt2, hphb] using hatt, hph⟩,
          by simpa [stepD, step, hatt2, hphb] using hB⟩
  | settled b =>
    cases hatt2 : msGet s.attempts b with
    | none => exact ⟨⟨att, by simpa [stepD, step, hatt2] using hatt, hph⟩,
        by simpa [stepD, step, hatt2] using hB⟩
    | some attb =>
      by_cases hc : attb.result.isSome ∧ msGet s.pendingCreations attb.hostname = some b
      · exact ⟨⟨att, by simpa [stepD, step, hatt2, hc] using hatt, hph⟩,
          by simpa [stepD, step, hatt2, hc] using hB⟩
      · exact ⟨⟨att, by simpa [stepD, step, hatt2, hc] using hatt, hph⟩,
          by simpa [stepD, step, hatt2, hc] using hB⟩
  | haltBegin b =>
    cases hatt2 : msGet s.attempts b with
    | none => exact ⟨⟨att, by simpa [stepD, step, hatt2] using hatt, hph⟩,
        by simpa [stepD, step, hatt2] using hB⟩
    | some attb =>
      have hab_of : attb.phase = .binding ∨ attb.phase = .running → a ≠ b := by
        intro hlive hq
        subst hq
        rw [hatt] at hatt2
        injection hatt2 with hatt2
        subst hatt2
        rcases hlive with h1 | h1
        · exact hne_binding h1
        · exact hne_running h1
      cases hphb : attb.phase with
      | binding =>
        have hab : a ≠ b := hab_of (Or.inl hphb)
        simp only [stepD, step, hatt2, hphb, Option.getD_some, emitEvent]
        refine ⟨⟨att, ?_, hph⟩, ?_⟩
        · rw [msGet_msSet_ne _ _ _ _ (fun hq => hab hq.symm)]
          exact hatt
        · intro h2 p hmem
          rcases List.mem_append.mp hmem with hmem | hmem
          · exact hB h2 p hmem
          · simp at hmem
      | running =>
        have hab : a ≠ b := hab_of (Or.inr hphb)
        simp only [stepD, step, hatt2, hphb, Option.getD_some, emitEvent]
        refine ⟨⟨att, ?_, hph⟩, ?_⟩
        · rw [msGet_msSet_ne _ _ _ _ (fun hq => hab hq.symm)]
          exact hatt
        · intro h2 p hmem
          rcases List.mem_append.mp hmem with hmem | hmem
          · exact hB h2 p hmem
          · simp at hmem
      | closing =>
        exact ⟨⟨att, by simpa [stepD, step, hatt2, hphb] using hatt, hph⟩,
          by simpa [stepD, step, hatt2, hphb] using hB⟩
      | done =>
        exact ⟨⟨att, by simpa [stepD, step, hatt2, hphb] using hatt, hph⟩,
          by simpa [stepD, step, hatt2, hphb] using hB⟩
  | closeOk b =>
    cases hatt2 : msGet s.attempts b with
    | none => exact ⟨⟨att, by simpa [stepD, step, hatt2] using hatt, hph⟩,
        by simpa [stepD, step, hatt2] using hB⟩
    | some attb =>
      by_cases hphb : attb.phase = .closing
      · simp only [stepD, step, hatt2, if_pos hphb, Option.getD_some]
        by_cases hab : a = b
        · subst hab
          refine ⟨⟨{ attb with phase := .done }, msGet_msSet_self _ _ _, Or.inr rfl⟩, hB⟩
        · refine ⟨⟨att, ?_, hph⟩, hB⟩
          rw [msGet_msSet_ne _ _ _ _ (fun hq => hab hq.symm)]
          exact hatt
      · exact ⟨⟨att, by simpa [stepD, step, hatt2, hphb] using hatt, hph⟩,
          by simpa [stepD, step, hatt2, hphb] using hB⟩
  | crash b msg =>
    cases hatt2 : msGet s.attempts b with
    | none => exact ⟨⟨att, by simpa [stepD, step, hatt2] using hatt, hph⟩,
        by simpa [stepD, step, hatt2] using hB⟩
    | some attb =>
      by_cases hphb : attb.phase = .running
      · have hab : a ≠ b := by
          intro hq
          subst hq
          rw [hatt] at hatt2
          injection hatt2 with hatt2
          rw [← hatt2] at hphb
          exact hne_running hphb
        simp only [stepD, step, hatt2, if_pos hphb, Option.getD_some, emitEvent]
        refine ⟨⟨att, ?_, hph⟩, ?_⟩
        · rw [msGet_msSet_ne _ _ _ _ (fun hq => hab hq.symm)]
          exact hatt
        · intro h2 p hmem
          rcases List.mem_append.mp hmem with hmem | hmem
          · rcases List.mem_append.mp hmem with hmem | hmem
            · exact hB h2 p hmem
            · simp at hmem
          · simp at hmem
      · exact ⟨⟨att, by simpa [stepD, step, hatt2, hphb] using hatt, hph⟩,
          by simpa [stepD, step, hatt2, hphb] using hB⟩
  | closeBus =>
    exact ⟨⟨att, by simpa [stepD, step] using hatt, hph⟩,
      by simpa [stepD, step] using hB⟩

theorem never_started_run {s : PoolState} (hs : Inv s) {a : Nat}
    (hA : ∃ att, msGet s.attempts a = some att ∧
      (att.phase = .closing ∨ att.phase = .done))
    (hB : ∀ h p, (some a, ServerEvent.started h p) ∉ s.sends) (ls : List Label) :
    ∀ h p, (some a, ServerEvent.started h p) ∉ (runLabels s ls).sends := by
  induction ls generalizing s with
  | nil => exact hB
  | cons l rest ih =>
    rw [runLabels, List.foldl_cons, ← runLabels]
    obtain ⟨hA2, hB2⟩ := never_started_stepD hs hA hB l
    exact ih (inv_stepD hs l) hA2 hB2

end Hydra

namespace Hydra

theorem eq_nil_of_all_none {κ α : Type} [DecidableEq κ] {m : List (κ × α)}
    (h : ∀ k, msGet m k = none) : m = [] := by
  cases m with
  | nil => rfl
  | cons p rest =>
    obtain ⟨k₁, v₁⟩ := p
    have := h k₁
    simp [msGet] at this

theorem stepD_closeOk_serverTasks (u : PoolState) (b : Nat) :
    (stepD u (.closeOk b)).serverTasks = u.serverTasks := by
  simp only [stepD, step]
  (repeat' split) <;> simp

theorem stepD_closeOk_sends (u : PoolState) (b : Nat) :
    (stepD u (.closeOk b)).sends = u.sends := by
  simp only [stepD, step]
  (repeat' split) <;> simp

theorem sends_mono_haltAll (as : List Nat) (u : PoolState)
    {x : Option Nat × ServerEvent} (hx : x ∈ u.sends) :
    x ∈ (as.foldl haltAttempt u).sends := by
  induction as generalizing u with
  | nil => exact hx
  | cons a rest ih =>
    rw [List.foldl_cons]
    exact ih _ (sends_mono_stepD _ _ (sends_mono_stepD _ _ hx))

theorem published_frozen_haltAll (as : List Nat) (u : PoolState) (hb : u.busClosed = true) :
    (as.foldl haltAttempt u).published = u.published := by
  induction as generalizing u with
  | nil => rfl
  | cons a rest ih =>
    rw [List.foldl_cons]
    obtain ⟨hp1, hb1⟩ := stepD_busClosed_frozen u (.haltBegin a) hb
    obtain ⟨hp2, hb2⟩ := stepD_busClosed_frozen _ (.closeOk a) hb1
    rw [haltAttempt] at *
    rw [ih _ hb2, hp2, hp1]

/-- `task.halt()` keeps the task entries of the other hostnames. -/
theorem haltAttempt_tasks_other {u : PoolState} (hu : Inv u) {h : String} {a a₀ : Nat}
    (hne : a ≠ a₀) (hg : msGet u.serverTasks h = some a) :
    msGet (haltAttempt u a₀).serverTasks h = some a := by
  rw [haltAttempt, stepD_closeOk_serverTasks]
  cases hatt : msGet u.attempts a₀ with
  | none => simpa [stepD, step, hatt] using hg
  | some att =>
    have hother : att.phase = .binding ∨ att.phase = .running → att.hostname ≠ h := by
      intro hlive hq
      have h1 := hu.liveTask a₀ att hatt hlive
      rw [hq, hg] at h1
      injection h1 with h1
      exact hne h1
    cases hph : att.phase with
    | binding =>
      simp only [stepD, step, hatt, hph, Option.getD_some, emitEvent]
      rw [msGet_msDelete_ne _ _ _ (hother (Or.inl hph))]
      exact hg
    | running =>
      simp only [stepD, step, hatt, hph, Option.getD_some, emitEvent]
      rw [msGet_msDelete_ne _ _ _ (hother (Or.inr hph))]
      exact hg
    | closing => simpa [stepD, step, hatt, hph] using hg
    | done => simpa [stepD, step, hatt, hph] using hg

/-- `task.halt()` removes the halted task's entry. -/
theorem haltAttempt_tasks_self {u : PoolState} (hu : Inv u) {h : String} {a₀ : Nat}
    (hg : msGet u.serverTasks h = some a₀) :
    msGet (haltAttempt u a₀).serverTasks h = none := by
  obtain ⟨att, hatt, hhost, hlive⟩ := hu.taskLive h a₀ hg
  rw [haltAttempt, stepD_closeOk_serverTasks]
  rcases hlive with hph | hph
  · simp only [stepD, step, hatt, hph, Option.getD_some, emitEvent]
    rw [hhost]
    exact msGet_msDelete_self _ _ hu.ndTasks
  · simp only [stepD, step, hatt, hph, Option.getD_some, emitEvent]
    rw [hhost]
    exact msGet_msDelete_self _ _ hu.ndTasks

/-- `task.halt()` sends the `stopped` event for the halted task's key. -/
theorem haltAttempt_stopped_sent {u : PoolState} (hu : Inv u) {h : String} {a₀ : Nat}
    (hg : msGet u.serverTasks h = some a₀) :
    (some a₀, ServerEvent.stopped h) ∈ (haltAttempt u a₀).sends := by
  obtain ⟨att, hatt, hhost, hlive⟩ := hu.taskLive h a₀ hg
  rw [haltAttempt, stepD_closeOk_sends]
  rcases hlive with hph | hph
  · simp [stepD, step, hatt, hph, emitEvent, hhost]
  · simp [stepD, step, hatt, hph, emitEvent, hhost]

theorem haltAttempt_inv {u : PoolState} (hu : Inv u) (a : Nat) : Inv (haltAttempt u a) :=
  inv_stepD (inv_stepD hu (.haltBegin a)) (.closeOk a)

/-- Halting, in any order, a set of tasks that covers every entry of the
task map empties the registry, and a `stopped` event is sent for every
hostname that had a task. -/
theorem haltAll_effects (as : List Nat) (u : PoolState) (hu : Inv u)
    (hcov : ∀ h a, msGet u.serverTasks h = some a → a ∈ as) :
    (as.foldl haltAttempt u).servers = [] ∧
    (∀ h a, msGet u.serverTasks h = some a →
      (some a, ServerEvent.stopped h) ∈ (as.foldl haltAttempt u).sends) := by
  induction as generalizing u with
  | nil =>
    simp only [List.foldl_nil]
    constructor
    · refine eq_nil_of_all_none (fun k => ?_)
      cases hk : msGet u.servers k with
      | none => rfl
      | some info =>
        obtain ⟨b, attb, htb, -⟩ := hu.recordContent k info hk
        exact absurd (hcov k b htb) (List.not_mem_nil _)
    · intro h a hg
      exact absurd (hcov h a hg) (List.not_mem_nil _)
  | cons a₀ rest ih =>
    have hu2 := haltAttempt_inv hu a₀
    have hcov2 : ∀ h a, msGet (haltAttempt u a₀).serverTasks h = some a → a ∈ rest := by
      intro h a hg2
      have hg : msGet u.serverTasks h = some a := by
        rw [haltAttempt, stepD_closeOk_serverTasks] at hg2
        cases hatt : msGet u.attempts a₀ with
        | none => simpa [stepD, step, hatt] using hg2
        | some att =>
          cases hph : att.phase with
          | binding =>
            simp only [stepD, step, hatt, hph, Option.getD_some, emitEvent] at hg2
            by_cases hh : att.hostname = h
            · rw [hh] at hg2
              rw [msGet_msDelete_self _ _ hu.ndTasks] at hg2
              cases hg2
            · rw [msGet_msDelete_ne _ _ _ hh] at hg2
              exact hg2
          | running =>
            simp only [stepD, step, hatt, hph, Option.getD_some, emitEvent] at hg2
            by_cases hh : att.hostname = h
            · rw [hh] at hg2
              rw [msGet_msDelete_self _ _ hu.ndTasks] at hg2
              cases hg2
            · rw [msGet_msDelete_ne _ _ _ hh] at hg2
              exact hg2
          | closing => simpa [stepD, step, hatt, hph] using hg2
          | done => simpa [stepD, step, hatt, hph] using hg2
      rcases List.mem_cons.mp (hcov h a hg) with h1 | h1
      · exfalso
        rw [haltAttempt_tasks_self hu (h1 ▸ hg)] at hg2
        cases hg2
      · exact h1
    obtain ⟨ih1, ih2⟩ := ih _ hu2 hcov2
    rw [List.foldl_cons]
    refine ⟨ih1, ?_⟩
    intro h a hg
    by_cases ha : a = a₀
    · subst ha
      exact sends_mono_haltAll _ _ (haltAttempt_stopped_sent hu hg)
    · exact ih2 h a (haltAttempt_tasks_other hu ha hg)

end Hydra

namespace Hydra

/-!
## Switchboard forwarding failures (`src/switchboard.ts`)

The proxy-error paths perform no pool operation at all: they only write a
client response.  We embed the response they build and state the frame
conditions on the pool state explicitly.
-/

structure HttpResponse where
  status : Nat
  errorName : String
  message : String
  deriving Repr, DecidableEq

/-- The error callback passed to `proxy.web(req, res, { target }, cb)`:
`res.status(502).json({ error: 'Bad Gateway', message: ... })` unless the
headers were already sent. -/
def proxyWebErrorCallback (hostname errMessage : String) (headersSent : Bool) :
    Option HttpResponse :=
  if headersSent then none
  else some { status := 502, errorName := "Bad Gateway",
              message := s!"Failed to proxy to {hostname}: {errMessage}" }

/-- The switchboard's `proxy.on('error')` handler: also a bare 502. -/
def proxyErrorHandler (errMessage : String) (headersSent : Bool) : Option HttpResponse :=
  if headersSent then none
  else some { status := 502, errorName := "Bad Gateway", message := errMessage }

/-- A forwarding failure handled by the switchboard: the callback body
touches only the response object, never the pool, so the pool state is
returned unchanged alongside the response. -/
def proxyFailForward (s : PoolState) (hostname errMessage : String) (headersSent : Bool) :
    PoolState × Option HttpResponse :=
  (s, proxyWebErrorCallback hostname errMessage headersSent)

/-- Claim C9: a forwarding failure to an already-resolved, ready backend
produces a Bad-Gateway (502) response and changes no lifecycle state: the
backend's record stays in the registry unchanged, and no lifecycle event
is sent or published. -/
theorem proxy_failure_bad_gateway_frame (s : PoolState) (k errMessage : String)
    (info : ServerInfo) (hrec : msGet s.servers k = some info)
    (hready : info.serverPresent = true) :
    (proxyFailForward s k errMessage false).1 = s ∧
    msGet (proxyFailForward s k errMessage false).1.servers k = some info ∧
    info.serverPresent = true ∧
    (proxyFailForward s k errMessage false).1.published = s.published ∧
    (proxyFailForward s k errMessage false).1.sends = s.sends ∧
    ∃ r, (proxyFailForward s k errMessage false).2 = some r ∧
      r.status = 502 ∧ r.errorName = "Bad Gateway" :=
  ⟨rfl, hrec, hready, rfl, rfl, ⟨_, rfl, rfl, rfl⟩⟩

/-- Witness for C9 at a concrete ready backend. -/
theorem proxy_failure_bad_gateway_frame_witness :
    msGet (runLabels (initState 4000 10) [.callStart "a", .listenOk 0]).servers "a"
      = some (readyInfo "a" 4000) ∧
    (proxyFailForward (runLabels (initState 4000 10) [.callStart "a", .listenOk 0])
        "a" "socket hang up" false).1
      = runLabels (initState 4000 10) [.callStart "a", .listenOk 0] ∧
    ∃ r, (proxyFailForward (runLabels (initState 4000 10) [.callStart "a", .listenOk 0])
        "a" "socket hang up" false).2 = some r ∧ r.status = 502 := by
  have h := proxy_failure_bad_gateway_frame
    (runLabels (initState 4000 10) [.callStart "a", .listenOk 0]) "a" "socket hang up"
    (readyInfo "a" 4000) (by decide) (by decide)
  obtain ⟨h1, h2, -, -, -, r, hr, hst, -⟩ := h
  exact ⟨h2, h1, r, hr, hst⟩

/-- Claim C3: `getOrCreate(k)` with no record for `k`, no pending creation
for `k`, and the registry at capacity rejects inside its first synchronous
segment with the capacity error and has none of the enumerated side
effects: no record or pending entry is created, no task is started, no
attempt is made, and no port is consumed. -/
theorem capacityExceeded_synchronous_no_side_effects (s : PoolState) (k : String)
    (hrec : msGet s.servers k = none) (hpend : msGet s.pendingCreations k = none)
    (hfull : s.servers.length = s.maxServers) :
    (getOrCreateStart s k).1 = .capacityError (capacityMessage s.maxServers) ∧
    (getOrCreateStart s k).2.servers = s.servers ∧
    (getOrCreateStart s k).2.pendingCreations = s.pendingCreations ∧
    (getOrCreateStart s k).2.serverTasks = s.serverTasks ∧
    (getOrCreateStart s k).2.attempts = s.attempts ∧
    (getOrCreateStart s k).2.nextPort = s.nextPort := by
  have hge : s.servers.length ≥ s.maxServers := le_of_eq hfull.symm
  rw [getOrCreateStart, hrec, getOrCreateSlow, hpend]
  simp [hge, emitEvent]

/-- Witness for C3: with `maxServers = 2`, two distinct keys register, and
the third distinct key is rejected with no state change. -/
theorem capacityExceeded_synchronous_no_side_effects_witness :
    (runLabels (initState 4000 2) [.callStart "a", .callStart "b"]).servers.length = 2 ∧
    (getOrCreateStart (runLabels (initState 4000 2) [.callStart "a", .callStart "b"]) "c").1
      = .capacityError (capacityMessage 2) ∧
    (getOrCreateStart (runLabels (initState 4000 2) [.callStart "a", .callStart "b"]) "c").2.servers
      = (runLabels (initState 4000 2) [.callStart "a", .callStart "b"]).servers ∧
    (getOrCreateStart (runLabels (initState 4000 2) [.callStart "a", .callStart "b"]) "c").2.nextPort
      = (runLabels (initState 4000 2) [.callStart "a", .callStart "b"]).nextPort := by
  have h := capacityExceeded_synchronous_no_side_effects
    (runLabels (initState 4000 2) [.callStart "a", .callStart "b"]) "c"
    (by decide) (by decide) (by decide)
  exact ⟨by decide, h.1, h.2.1, h.2.2.2.2.2⟩

end Hydra

namespace Hydra

/-- Claim C2: in every reachable state the registry never exceeds
`maxServers`; furthermore the capacity check and the registration of a
new key's placeholder record are part of one and the same scheduler step
(the synchronous first segment of `getOrCreate`, which contains no
suspension point), so a single `callStart` transition both checks the cap
and registers the record, and the bound still holds afterwards. -/
theorem capacity_never_exceeded (s : PoolState) (bp ms : Nat) (ls : List Label)
    (hS : s = runLabels (initState bp ms) ls) (k : String) :
    s.servers.length ≤ ms ∧
    (msGet s.servers k = none → msGet s.pendingCreations k = none →
      s.servers.length < ms →
      msGet (stepD s (.callStart k)).servers k = some (placeholderInfo k s.nextPort) ∧
      (stepD s (.callStart k)).servers.length ≤ ms) := by
  have hms : s.maxServers = ms := by
    rw [hS, runLabels_maxServers]
    rfl
  have hv : Inv s := hS ▸ inv_reachable bp ms ls
  constructor
  · rw [← hms]
    exact hv.capacity
  · intro hrec hpend hcap
    have hcap2 : s.servers.length < s.maxServers := by rw [hms]; exact hcap
    constructor
    · show msGet (getOrCreateStart s k).2.servers k = _
      rw [getOrCreateStart_create hrec hpend hcap2]
      exact msGet_msSet_self _ _ _
    · have hv2 := inv_stepD hv (.callStart k)
      have hms2 : (stepD s (.callStart k)).maxServers = ms := by
        rw [stepD_maxServers, hms]
      rw [← hms2]
      exact hv2.capacity

/-- Witness for C2 at a concrete fresh key under the cap. -/
theorem capacity_never_exceeded_witness :
    (runLabels (initState 4000 2) [.callStart "a"]).servers.length ≤ 2 ∧
    msGet (stepD (runLabels (initState 4000 2) [.callStart "a"]) (.callStart "b")).servers "b"
      = some (placeholderInfo "b" 4001) := by
  have h := capacity_never_exceeded (runLabels (initState 4000 2) [.callStart "a"])
    4000 2 [.callStart "a"] rfl "b"
  exact ⟨h.1, (h.2 (by decide) (by decide) (by decide)).1⟩

/-- Claim C7: over a pool's lifetime, attempt identifiers are assigned in
creation order and the port assigned to a later provisioning attempt is
strictly greater than the port of any earlier one; ports are never
reused, even after the earlier backend was torn down. -/
theorem ports_strictly_increasing_never_reused (s : PoolState) (bp ms : Nat)
    (ls : List Label) (hS : s = runLabels (initState bp ms) ls)
    (i j : Nat) (ai aj : Attempt)
    (hi : msGet s.attempts i = some ai) (hj : msGet s.attempts j = some aj) :
    (i < j → ai.port < aj.port) ∧ (i ≠ j → ai.port ≠ aj.port) := by
  have hv : Inv s := hS ▸ inv_reachable bp ms ls
  have hmi := msGet_eq_some_mem hi
  have hmj := msGet_eq_some_mem hj
  constructor
  · intro hij
    exact hv.portsMono _ hmi _ hmj hij
  · intro hij
    rcases Nat.lt_or_ge i j with h1 | h1
    · exact Nat.ne_of_lt (hv.portsMono _ hmi _ hmj h1)
    · rcases Nat.lt_or_ge j i with h2 | h2
      · exact (Nat.ne_of_lt (hv.portsMono _ hmj _ hmi h2)).symm
      · omega

/-- Witness for C7: create `a`, `b`, `c`, tear all three down, then
create `d`; `d`'s port is strictly greater than each of the three torn
down backends' ports. -/
theorem ports_strictly_increasing_never_reused_witness :
    msGet (runLabels (initState 4000 100)
        [.callStart "a", .listenOk 0, .settled 0, .haltBegin 0, .closeOk 0,
         .callStart "b", .listenOk 1, .settled 1, .haltBegin 1, .closeOk 1,
         .callStart "c", .listenOk 2, .settled 2, .haltBegin 2, .closeOk 2,
         .callStart "d"]).attempts 3
      = some { hostname := "d", port := 4003, phase := .binding, result := none } ∧
    ({ hostname := "a", port := 4000, phase := .done,
        result := some (.ok (readyInfo "a" 4000)) } : Attempt).port
      < ({ hostname := "d", port := 4003, phase := .binding, result := none } : Attempt).port ∧
    ({ hostname := "b", port := 4001, phase := .done,
        result := some (.ok (readyInfo "b" 4001)) } : Attempt).port
      < ({ hostname := "d", port := 4003, phase := .binding, result := none } : Attempt).port ∧
    ({ hostname := "c", port := 4002, phase := .done,
        result := some (.ok (readyInfo "c" 4002)) } : Attempt).port
      < ({ hostname := "d", port := 4003, phase := .binding, result := none } : Attempt).port := by
  refine ⟨by decide, ?_, ?_, ?_⟩
  · exact (ports_strictly_increasing_never_reused _ 4000 100
      [.callStart "a", .listenOk 0, .settled 0, .haltBegin 0, .closeOk 0,
       .callStart "b", .listenOk 1, .settled 1, .haltBegin 1, .closeOk 1,
       .callStart "c", .listenOk 2, .settled 2, .haltBegin 2, .closeOk 2,
       .callStart "d"] rfl 0 3 _ _ (by decide) (by decide)).1 (by decide)
  · exact (ports_strictly_increasing_never_reused _ 4000 100
      [.callStart "a", .listenOk 0, .settled 0, .haltBegin 0, .closeOk 0,
       .callStart "b", .listenOk 1, .settled 1, .haltBegin 1, .closeOk 1,
       .callStart "c", .listenOk 2, .settled 2, .haltBegin 2, .closeOk 2,
       .callStart "d"] rfl 1 3 _ _ (by decide) (by decide)).1 (by decide)
  · exact (ports_strictly_increasing_never_reused _ 4000 100
      [.callStart "a", .listenOk 0, .settled 0, .haltBegin 0, .closeOk 0,
       .callStart "b", .listenOk 1, .settled 1, .haltBegin 1, .closeOk 1,
       .callStart "c", .listenOk 2, .settled 2, .haltBegin 2, .closeOk 2,
       .callStart "d"] rfl 2 3 _ _ (by decide) (by decide)).1 (by decide)

theorem getOrCreateSlow_no_fastPath (s2 : PoolState) (k : String) (info2 : ServerInfo) :
    (getOrCreateSlow s2 k).1 ≠ .fastPath info2 := by
  rw [getOrCreateSlow]
  (repeat' split) <;> simp

/-- The fast path of `getOrCreate` only ever returns a record whose
service handle is populated (`existing && existing.server`). -/
theorem fastPath_only_ready (s2 : PoolState) (k : String) (info2 : ServerInfo)
    (hf : (getOrCreateStart s2 k).1 = .fastPath info2) : info2.serverPresent = true := by
  cases hsv : msGet s2.servers k with
  | some existing =>
    simp only [getOrCreateStart, hsv] at hf
    by_cases hr : existing.serverPresent = true
    · rw [if_pos hr] at hf
      have hf2 : GoCStart.fastPath existing = GoCStart.fastPath info2 := hf
      injection hf2 with hf2
      rw [← hf2]
      exact hr
    · rw [if_neg hr] at hf
      exact absurd hf (getOrCreateSlow_no_fastPath s2 k info2)
  | none =>
    simp only [getOrCreateStart, hsv] at hf
    exact absurd hf (getOrCreateSlow_no_fastPath s2 k info2)

/-- Claim C10: while a provisioning attempt for a key is in flight
(binding), the registry already holds a placeholder record for that key
whose service handle is absent, and `get` returns that non-ready record;
`list()` only ever returns records whose handle is populated, and the
`getOrCreate` fast path only ever returns ready records — so a caller of
`get` cannot assume readiness. -/
theorem placeholder_record_visible_while_in_flight (s : PoolState) (bp ms : Nat)
    (ls : List Label) (hS : s = runLabels (initState bp ms) ls)
    (a : Nat) (att : Attempt)
    (hatt : msGet s.attempts a = some att) (hph : att.phase = .binding) :
    poolGet s att.hostname = some (placeholderInfo att.hostname att.port) ∧
    (placeholderInfo att.hostname att.port).serverPresent = false ∧
    (∀ info2 ∈ poolList s, info2.serverPresent = true) ∧
    (∀ s2 : PoolState, ∀ k info2,
      (getOrCreateStart s2 k).1 = GoCStart.fastPath info2 → info2.serverPresent = true) := by
  have hv : Inv s := hS ▸ inv_reachable bp ms ls
  refine ⟨hv.bindingRecord a att hatt hph, rfl, ?_, fastPath_only_ready⟩
  intro info2 hmem
  exact (List.mem_filter.mp hmem).2

/-- Witness for C10: right after `callStart "a"`, attempt 0 is binding and
`get` returns the non-ready placeholder. -/
theorem placeholder_record_visible_while_in_flight_witness :
    poolGet (runLabels (initState 4000 10) [.callStart "a"]) "a"
      = some (placeholderInfo "a" 4000) ∧
    (placeholderInfo "a" 4000).serverPresent = false := by
  have h := placeholder_record_visible_while_in_flight
    (runLabels (initState 4000 10) [.callStart "a"]) 4000 10 [.callStart "a"] rfl
    0 { hostname := "a", port := 4000, phase := .binding, result := none }
    (by decide) (by decide)
  exact ⟨h.1, h.2.1⟩

end Hydra

namespace Hydra

/-- Claim C5: when the backend service fails to start (`listenFail`), the
pending creation's future is rejected with the provisioning failure — the
attempt's single settled result, observed by the original caller and by
every deduplicated caller awaiting the same promise — an `error` event is
published (before the `stopped` of the teardown), the partial record is
removed from the registry, and no `started` event is ever emitted for
this attempt, in this or any later state. -/
theorem provisioning_failure_rejects_and_cleans (s : PoolState) (bp ms : Nat)
    (ls : List Label) (hS : s = runLabels (initState bp ms) ls)
    (a : Nat) (att : Attempt) (msg : String)
    (hatt : msGet s.attempts a = some att) (hph : att.phase = .binding)
    (hbus : s.busClosed = false) :
    msGet (stepD s (.listenFail a msg)).attempts a
      = some { att with phase := AttemptPhase.done, result := some (.failed msg) } ∧
    msGet (stepD s (.listenFail a msg)).servers att.hostname = none ∧
    (stepD s (.listenFail a msg)).sends
      = s.sends ++ [(some a, .error att.hostname msg), (some a, .stopped att.hostname)] ∧
    ServerEvent.error att.hostname msg ∈ (stepD s (.listenFail a msg)).published ∧
    (∀ ls2 h p, (some a, ServerEvent.started h p)
      ∉ (runLabels (stepD s (.listenFail a msg)) ls2).sends) := by
  have hv : Inv s := hS ▸ inv_reachable bp ms ls
  have hstep : stepD s (.listenFail a msg)
      = emitEvent (some a) (.stopped att.hostname)
          (emitEvent (some a) (.error att.hostname msg)
            { s with
              servers := msDelete s.servers att.hostname
              serverTasks := msDelete s.serverTasks att.hostname
              attempts := msSet s.attempts a
                { att with phase := .done, result := some (.failed msg) } }) := by
    simp [stepD, step, hatt, hph]
  refine ⟨?_, ?_, ?_, ?_, ?_⟩
  · rw [hstep]
    exact msGet_msSet_self _ _ _
  · rw [hstep]
    show msGet (msDelete s.servers att.hostname) att.hostname = none
    exact msGet_msDelete_self _ _ hv.ndServers
  · rw [hstep]
    simp [emitEvent]
  · rw [hstep]
    simp [emitEvent, hbus]
  · intro ls2 h p
    have hv2 : Inv (stepD s (.listenFail a msg)) := inv_stepD hv _
    refine never_started_run hv2
      ⟨{ att with phase := AttemptPhase.done, result := some (.failed msg) }, ?_, Or.inr rfl⟩
      ?_ ls2 h p
    · rw [hstep]
      exact msGet_msSet_self _ _ _
    · intro h2 p2 hmem
      rw [hstep] at hmem
      simp only [emitEvent, List.append_assoc, List.mem_append] at hmem
      rcases hmem with hmem | hmem
      · obtain ⟨attx, hax, info, hres⟩ := hv.startedResult a h2 p2 hmem
        rw [hatt] at hax
        injection hax with hax
        rw [← hax, hv.bindingNoResult a att hatt hph] at hres
        cases hres
      · simp at hmem

/-- Witness for C5: attempt 0 for key `"a"` fails to bind. -/
theorem provisioning_failure_rejects_and_cleans_witness :
    msGet (stepD (runLabels (initState 4000 10) [.callStart "a"])
        (.listenFail 0 "EADDRINUSE")).attempts 0
      = some { hostname := "a", port := 4000, phase := AttemptPhase.done,
               result := some (.failed "EADDRINUSE") } ∧
    msGet (stepD (runLabels (initState 4000 10) [.callStart "a"])
        (.listenFail 0 "EADDRINUSE")).servers "a" = none ∧
    ServerEvent.error "a" "EADDRINUSE"
      ∈ (stepD (runLabels (initState 4000 10) [.callStart "a"])
          (.listenFail 0 "EADDRINUSE")).published := by
  have h := provisioning_failure_rejects_and_cleans
    (runLabels (initState 4000 10) [.callStart "a"]) 4000 10 [.callStart "a"] rfl
    0 { hostname := "a", port := 4000, phase := .binding, result := none } "EADDRINUSE"
    (by decide) (by decide) (by decide)
  exact ⟨h.1, h.2.1, h.2.2.2.1⟩

end Hydra

namespace Hydra

/-- Claim C4, counterexample: the claim states that the `stopped` event for
a key is published only after the underlying service's close has been
confirmed, never before.  In the code, the lifecycle task's `finally`
(which emits `stopped` and deletes the record) runs when the task body is
wound down, and only afterwards is the `useExpressServer` resource torn
down — `server.close()` followed by the wait for the `'close'`
confirmation.  Concretely: after `callStart "a"`, `listenOk 0` and
`haltBegin 0`, `stopped "a"` has already been published while attempt 0 is
still in the `closing` phase, i.e. the close confirmation (`closeOk 0`)
has not yet arrived. -/
theorem stopped_published_before_close_confirmed :
    ServerEvent.stopped "a"
      ∈ (runLabels (initState 4000 10)
          [.callStart "a", .listenOk 0, .haltBegin 0]).published ∧
    msGet (runLabels (initState 4000 10)
        [.callStart "a", .listenOk 0, .haltBegin 0]).attempts 0
      = some { hostname := "a", port := 4000, phase := AttemptPhase.closing,
               result := some (.ok (readyInfo "a" 4000)) } := by
  decide

/-- Claim C4 (amended): in every backend teardown, `error` (present only
when the teardown is due to a failure) is emitted strictly before
`stopped`, atomically in the same teardown segment; the `stopped` event
is emitted when the task's `finally` runs — i.e. already while the close
confirmation is still outstanding (`closing`), not after it; and
`shutdown(k)` (an awaited `task.halt()`) returns only after the `stopped`
event has been emitted and the close has been confirmed (the attempt has
reached `done`). -/
theorem teardown_event_order_amended (s : PoolState) (bp ms : Nat) (ls : List Label)
    (hS : s = runLabels (initState bp ms) ls) (a : Nat) (att : Attempt) (msg : String)
    (hatt : msGet s.attempts a = some att) :
    (att.phase = .running →
      (stepD s (.crash a msg)).sends
        = s.sends ++ [(some a, .error att.hostname msg), (some a, .stopped att.hostname)]) ∧
    (att.phase = .binding →
      (stepD s (.listenFail a msg)).sends
        = s.sends ++ [(some a, .error att.hostname msg), (some a, .stopped att.hostname)]) ∧
    (att.phase = .closing → (some a, ServerEvent.stopped att.hostname) ∈ s.sends) ∧
    (att.phase = .running →
      (some a, ServerEvent.stopped att.hostname) ∈ (haltAttempt s a).sends ∧
      msGet (haltAttempt s a).attempts a = some { att with phase := AttemptPhase.done }) := by
  have hv : Inv s := hS ▸ inv_reachable bp ms ls
  refine ⟨?_, ?_, ?_, ?_⟩
  · intro hph
    simp [stepD, step, hatt, hph, emitEvent]
  · intro hph
    simp [stepD, step, hatt, hph, emitEvent]
  · intro hph
    exact hv.stoppedSent a att hatt (Or.inl hph)
  · intro hph
    have hstep : stepD s (.haltBegin a)
        = emitEvent (some a) (.stopped att.hostname)
            { s with
              servers := msDelete s.servers att.hostname
              serverTasks := msDelete s.serverTasks att.hostname
              attempts := msSet s.attempts a { att with phase := .closing } } := by
      simp [stepD, step, hatt, hph]
    constructor
    · rw [haltAttempt, stepD_closeOk_sends, hstep]
      simp [emitEvent]
    · have hmid : msGet (stepD s (.haltBegin a)).attempts a
          = some { att with phase := AttemptPhase.closing } := by
        rw [hstep]
        exact msGet_msSet_self _ _ _
      rw [haltAttempt]
      set u := stepD s (.haltBegin a) with hu
      have hstep2 : stepD u (.closeOk a)
          = { u with attempts := msSet u.attempts a { att with phase := AttemptPhase.done } } := by
        simp [stepD, step, hmid]
      rw [hstep2]
      exact msGet_msSet_self _ _ _

/-- Witness for the amended C4 at a concrete running backend. -/
theorem teardown_event_order_amended_witness :
    (stepD (runLabels (initState 4000 10) [.callStart "a", .listenOk 0])
        (.crash 0 "boom")).sends
      = (runLabels (initState 4000 10) [.callStart "a", .listenOk 0]).sends
        ++ [(some 0, .error "a" "boom"), (some 0, .stopped "a")] ∧
    (some 0, ServerEvent.stopped "a")
      ∈ (haltAttempt (runLabels (initState 4000 10) [.callStart "a", .listenOk 0]) 0).sends := by
  have h := teardown_event_order_amended
    (runLabels (initState 4000 10) [.callStart "a", .listenOk 0]) 4000 10
    [.callStart "a", .listenOk 0] rfl 0
    { hostname := "a", port := 4000, phase := .running,
      result := some (.ok (readyInfo "a" 4000)) } "boom" (by decide)
  exact ⟨h.1 rfl, (h.2.2.2 rfl).1⟩

end Hydra

namespace Hydra

/-- Claim C8, counterexample: the claim states that pool-wide termination
publishes a `stopped` event for every key registered at its start.  But
the pool resource's own `finally` runs `events.close()` *before* the
frame's child lifecycle tasks are halted (the code itself logs
"N server(s) *will be* cleaned up" there), so by the time each task's
`finally` calls `emitEvent({type:'stopped',...})` the signal is closed
and no subscriber can observe the event.  Concretely: with one ready
backend `"a"`, `terminatePool` leaves `stopped "a"` out of the published
events even though `"a"` was registered when termination began. -/
theorem terminate_stopped_not_published_counterexample :
    (msGet (runLabels (initState 4000 10)
        [.callStart "a", .listenOk 0, .settled 0]).servers "a").isSome = true ∧
    ServerEvent.stopped "a"
      ∉ (terminatePool (runLabels (initState 4000 10)
          [.callStart "a", .listenOk 0, .settled 0])).published := by
  decide

/-- Claim C8 (amended): pool-wide termination halts every lifecycle task
and waits for each task's teardown to finish; when it completes the
registry is empty; each halted task's `finally` emits its `stopped`
event — but the event signal has already been closed when termination
begins, so none of these `stopped` events is delivered to subscribers:
the published event log does not change during termination. -/
theorem terminatePool_amended (s : PoolState) (bp ms : Nat) (ls : List Label)
    (hS : s = runLabels (initState bp ms) ls) :
    (terminatePool s).servers = [] ∧
    (∀ h info, msGet s.servers h = some info →
      ∃ a, (some a, ServerEvent.stopped h) ∈ (terminatePool s).sends) ∧
    (terminatePool s).published = s.published := by
  have hv : Inv s := hS ▸ inv_reachable bp ms ls
  have hu : Inv (stepD s .closeBus) := inv_stepD hv .closeBus
  have htasks : (stepD s .closeBus).serverTasks = s.serverTasks := rfl
  have hcov : ∀ h a, msGet (stepD s .closeBus).serverTasks h = some a →
      a ∈ (s.serverTasks.reverse).map Prod.snd := by
    intro h a hg
    rw [htasks] at hg
    exact List.mem_map.mpr ⟨(h, a), List.mem_reverse.mpr (msGet_eq_some_mem hg), rfl⟩
  obtain ⟨hempty, hstops⟩ :=
    haltAll_effects ((s.serverTasks.reverse).map Prod.snd) (stepD s .closeBus) hu hcov
  refine ⟨hempty, ?_, ?_⟩
  · intro h info hinfo
    obtain ⟨a, att, hta, -⟩ := hv.recordContent h info hinfo
    refine ⟨a, hstops h a ?_⟩
    rw [htasks]
    exact hta
  · have hb : (stepD s .closeBus).busClosed = true := rfl
    rw [terminatePool, published_frozen_haltAll _ _ hb]
    rfl

/-- Witness for the amended C8 at a concrete pool with one ready
backend. -/
theorem terminatePool_amended_witness :
    (terminatePool (runLabels (initState 4000 10)
        [.callStart "a", .listenOk 0, .settled 0])).servers = [] ∧
    (∃ a, (some a, ServerEvent.stopped "a")
      ∈ (terminatePool (runLabels (initState 4000 10)
          [.callStart "a", .listenOk 0, .settled 0])).sends) ∧
    (terminatePool (runLabels (initState 4000 10)
        [.callStart "a", .listenOk 0, .settled 0])).published
      = (runLabels (initState 4000 10)
          [.callStart "a", .listenOk 0, .settled 0]).published := by
  have h := terminatePool_amended
    (runLabels (initState 4000 10) [.callStart "a", .listenOk 0, .settled 0])
    4000 10 [.callStart "a", .listenOk 0, .settled 0] rfl
  exact ⟨h.1, h.2.1 "a" (readyInfo "a" 4000) (by decide), h.2.2⟩

end Hydra

namespace Hydra

/-- Claim C1: at most one pending creation exists per routing key (the
pending map has one entry per key), and two concurrent `getOrCreate(k)`
calls issued before either completes are deduplicated onto one
provisioning attempt.  The first call's synchronous segment starts
attempt `nextAttemptId` and assigns one port; after any interleaving of
further scheduler steps that does not include the pending entry's
removal (the awaiting callers' `finally`), the second call's synchronous
segment changes no state — it starts no second attempt, assigns no port —
and resolves to the same attempt: it either awaits the same pending
attempt (hence observes that attempt's single settled outcome, success
or failure) or fast-paths to the very record that attempt resolved
with. -/
theorem getOrCreate_concurrent_dedup (s : PoolState) (bp ms : Nat) (ls : List Label)
    (hS : s = runLabels (initState bp ms) ls) (k : String)
    (hrec : msGet s.servers k = none) (hpend : msGet s.pendingCreations k = none)
    (hcap : s.servers.length < s.maxServers) :
    (getOrCreateStart s k).1 = GoCStart.newAttempt s.nextAttemptId s.nextPort ∧
    attemptIdsFor (getOrCreateStart s k).2 k = attemptIdsFor s k ++ [s.nextAttemptId] ∧
    ((getOrCreateStart s k).2.pendingCreations.map Prod.fst).Nodup ∧
    (∀ ls2, Label.settled s.nextAttemptId ∉ ls2 →
      (getOrCreateStart (runLabels (getOrCreateStart s k).2 ls2) k).2
        = runLabels (getOrCreateStart s k).2 ls2 ∧
      attemptIdsFor (runLabels (getOrCreateStart s k).2 ls2) k
        = attemptIdsFor s k ++ [s.nextAttemptId] ∧
      ((getOrCreateStart (runLabels (getOrCreateStart s k).2 ls2) k).1
          = GoCStart.awaitPending s.nextAttemptId ∨
        ∃ info att,
          (getOrCreateStart (runLabels (getOrCreateStart s k).2 ls2) k).1
            = GoCStart.fastPath info ∧
          msGet (runLabels (getOrCreateStart s k).2 ls2).attempts s.nextAttemptId
            = some att ∧
          att.result = some (AttemptResult.ok info))) := by
  have hv : Inv s := hS ▸ inv_reachable bp ms ls
  have hcr := getOrCreateStart_create hrec hpend hcap
  have hv1 : Inv (getOrCreateStart s k).2 := inv_stepD hv (.callStart k)
  have hfrA : msGet s.attempts s.nextAttemptId = none := by
    cases hq : msGet s.attempts s.nextAttemptId with
    | some att => exact absurd (hv.idsBelow _ (msGet_eq_some_mem hq)) (lt_irrefl _)
    | none => rfl
  have hp1 : msGet (getOrCreateStart s k).2.pendingCreations k = some s.nextAttemptId := by
    rw [hcr]
    exact msGet_msSet_self _ _ _
  have hids1 : attemptIdsFor (getOrCreateStart s k).2 k
      = attemptIdsFor s k ++ [s.nextAttemptId] := by
    rw [hcr]
    show ((msSet s.attempts s.nextAttemptId _).filter _).map _ = _
    rw [msSet_fresh_append _ hfrA]
    simp [attemptIdsFor, List.filter_append]
  refine ⟨by rw [hcr], hids1, hv1.ndPending, ?_⟩
  intro ls2 hno
  have hv2 : Inv (runLabels (getOrCreateStart s k).2 ls2) := inv_runLabels hv1 ls2
  have hp2 : msGet (runLabels (getOrCreateStart s k).2 ls2).pendingCreations k
      = some s.nextAttemptId := pending_persist_run hp1 ls2 hno
  have hids2 : attemptIdsFor (runLabels (getOrCreateStart s k).2 ls2) k
      = attemptIdsFor s k ++ [s.nextAttemptId] := by
    rw [attemptIdsFor_run hv1 hp1 ls2 hno, hids1]
  set s2 := runLabels (getOrCreateStart s k).2 ls2 with hs2
  have hmain :
      (getOrCreateStart s2 k).2 = s2 ∧
      ((getOrCreateStart s2 k).1 = GoCStart.awaitPending s.nextAttemptId ∨
        ∃ info att,
          (getOrCreateStart s2 k).1 = GoCStart.fastPath info ∧
          msGet s2.attempts s.nextAttemptId = some att ∧
          att.result = some (AttemptResult.ok info)) := by
    cases hsv : msGet s2.servers k with
    | none =>
      constructor
      · simp [getOrCreateStart, hsv, getOrCreateSlow, hp2]
      · left
        simp [getOrCreateStart, hsv, getOrCreateSlow, hp2]
    | some existing =>
      by_cases hr : existing.serverPresent = true
      · obtain ⟨b, attb, htb, hab, hhb, hcb⟩ := hv2.recordContent k existing hsv
        rcases hcb with ⟨hphb, hinfo⟩ | ⟨hphb, hinfo⟩
        · exfalso
          rw [hinfo] at hr
          simp [placeholderInfo] at hr
        · have hagree := hv2.pendingTaskAgree k s.nextAttemptId b hp2 htb
          have hres := hv2.runningResult b attb hab hphb
          constructor
          · simp [getOrCreateStart, hsv, hr]
          · right
            refine ⟨existing, attb, ?_, ?_, ?_⟩
            · simp [getOrCreateStart, hsv, hr]
            · rw [hagree]
              exact hab
            · rw [hres, hinfo, hhb]
      · constructor
        · simp [getOrCreateStart, hsv, hr, getOrCreateSlow, hp2]
        · left
          simp [getOrCreateStart, hsv, hr, getOrCreateSlow, hp2]
  exact ⟨hmain.1, hids2, hmain.2⟩

/-- Witness for C1: a fresh pool, two immediately consecutive
`getOrCreate("a")` synchronous segments. -/
theorem getOrCreate_concurrent_dedup_witness :
    (getOrCreateStart (initState 4000 10) "a").1 = GoCStart.newAttempt 0 4000 ∧
    (getOrCreateStart (getOrCreateStart (initState 4000 10) "a").2 "a").2
      = (getOrCreateStart (initState 4000 10) "a").2 ∧
    ((getOrCreateStart (getOrCreateStart (initState 4000 10) "a").2 "a").1
        = GoCStart.awaitPending 0 ∨
      ∃ info att,
        (getOrCreateStart (getOrCreateStart (initState 4000 10) "a").2 "a").1
          = GoCStart.fastPath info ∧
        msGet (getOrCreateStart (initState 4000 10) "a").2.attempts 0 = some att ∧
        att.result = some (AttemptResult.ok info)) := by
  have h := getOrCreate_concurrent_dedup (initState 4000 10) 4000 10 [] rfl "a"
    (by decide) (by decide) (by decide)
  obtain ⟨h1, -, -, h4⟩ := h
  obtain ⟨h5, -, h7⟩ := h4 [] (by decide)
  exact ⟨h1, h5, h7⟩
